import Mathlib

/-!
Verification of the classification and structured-extraction engine of the
`aimachingmail` repository (`src/ai-email-processor`).

The Python source is shallowly embedded: dict-based email inputs become
structures with `Option`-valued fields (`None` = missing key, `email_data.get`
supplies the default), Python floats used only as exact decimal literals and
sums of such literals become `ℚ`, and the AI network calls — the only
nondeterministic inputs — become explicit parameters (`Except String ...`
values standing for "provider call raised" / "provider call returned this
text").  Python string lowering is modelled on the ASCII letters (the
Japanese lexicons are untouched by `str.lower`), and `json.loads` is modelled
on the JSON fragment actually exercised here: objects, arrays, strings
without escape sequences, natural-number literals, `true`/`false`/`null`.
All definitions are fuel-free structural recursions or carry an explicit
fuel argument so that every function evaluates inside the kernel.
-/

/-! ## Basic string machinery (models of Python `str` operations) -/

/-- Model of Python `str.lower` restricted to ASCII letters.  The classifier
lexicons are Japanese (unchanged by lowering) plus ASCII keywords. -/
def lowerChar (c : Char) : Char :=
  if 'A' ≤ c ∧ c ≤ 'Z' then Char.ofNat (c.toNat + 32) else c

def pyLower (s : String) : String :=
  String.mk (s.toList.map lowerChar)

/-- Substring search on character lists (helper for `strContains`). -/
def subChars (needle : List Char) : List Char → Bool
  | [] => needle.isEmpty
  | c :: t => needle.isPrefixOf (c :: t) || subChars needle t

/-- Model of Python `needle in hay` (substring containment). -/
def strContains (hay needle : String) : Bool :=
  subChars needle.toList hay.toList

/-- Model of Python `s.endswith suf`. -/
def strEndsWith (s suf : String) : Bool :=
  suf.toList.isSuffixOf s.toList

/-- Split a character list at a separator character, keeping empty pieces
(the behaviour of Python `str.split(sep)` for one-character separators). -/
def splitChars (sep : Char) : List Char → List (List Char)
  | [] => [[]]
  | c :: t =>
    if c = sep then [] :: splitChars sep t
    else
      match splitChars sep t with
      | h :: r => (c :: h) :: r
      | [] => [[c]]

/-- Model of Python `s.split(sep)` for a one-character separator. -/
def pySplit (s : String) (sep : Char) : List String :=
  (splitChars sep s.toList).map String.mk

/-- Model of Python `sep.join(parts)`. -/
def pyJoin (sep : String) : List String → String
  | [] => ""
  | [x] => x
  | x :: t => x ++ sep ++ pyJoin sep t

/-! ## `src/models/data_models.py` — field validators

Pydantic validators, modelled on the string-or-null inputs the claims range
over (Python's `str(v)` coercion of other runtime types is outside the
modelled domain). -/

/-- `ProjectStructured.validate_title`: `if not v or v is None: return "案件名不明"`. -/
def validate_title (v : Option String) : String :=
  match v with
  | Option.none => "案件名不明"
  | some s => if s = "" then "案件名不明" else s

/-- `EngineerStructured.validate_name`. -/
def validate_name (v : Option String) : String :=
  match v with
  | Option.none => "名前不明"
  | some s => if s = "" then "名前不明" else s

/-- `EngineerStructured.validate_experience`. -/
def validate_experience (v : Option String) : String :=
  match v with
  | Option.none => "不明"
  | some s => if s = "" then "不明" else s

/-- `EngineerStructured.validate_gender`: substring checks on the lowercased
input, male list checked first. -/
def validate_gender (v : Option String) : Option String :=
  match v with
  | Option.none => Option.none
  | some s =>
    let vs := pyLower s
    if ["男", "male", "m"].any (fun w => strContains vs w) then some "男性"
    else if ["女", "female", "f"].any (fun w => strContains vs w) then some "女性"
    else some "回答しない"

/-- The ordered mapping table of `validate_language_level` (Python dict
literal; insertion order is iteration order). -/
def languageLevelMappings : List (String × String) :=
  [ ("n1", "ネイティブレベル"), ("n2", "ビジネスレベル"), ("n3", "日常会話レベル"),
    ("n4", "日常会話レベル"), ("n5", "日常会話レベル"),
    ("1級", "ネイティブレベル"), ("2級", "ビジネスレベル"), ("3級", "日常会話レベル"),
    ("4級", "日常会話レベル"), ("5級", "日常会話レベル"),
    ("ネイティブ", "ネイティブレベル"), ("native", "ネイティブレベル"),
    ("ほぼ流暢", "ビジネスレベル"), ("流暢", "ビジネスレベル"), ("fluent", "ビジネスレベル"),
    ("ビジネス", "ビジネスレベル"), ("business", "ビジネスレベル"),
    ("日常会話", "日常会話レベル"), ("conversational", "日常会話レベル"),
    ("基本", "日常会話レベル"), ("basic", "日常会話レベル"),
    ("初級", "日常会話レベル"), ("中級", "日常会話レベル"),
    ("上級", "ビジネスレベル"), ("advanced", "ビジネスレベル"),
    ("不問", "不問"), ("問わない", "不問"), ("なし", "不問"), ("none", "不問") ]

/-- Body of `EngineerStructured.validate_language_level` after the null
check: first table key contained in the lowercased input wins; else the first
ASCII digit 1–5 decides (`re.findall(r"[1-5]", v_str)`); else the default
keyword chains; else the fallback bucket 日常会話レベル. -/
def languageLevelOfString (s : String) : String :=
  let vs := pyLower s
  match languageLevelMappings.findSome?
      (fun p => if strContains vs p.1 then some p.2 else Option.none) with
  | some m => m
  | Option.none =>
    match (vs.toList.filter (fun c => decide ('1' ≤ c ∧ c ≤ '5'))).head? with
    | some c =>
      if c = '1' then "ネイティブレベル"
      else if c = '2' then "ビジネスレベル"
      else "日常会話レベル"
    | Option.none =>
      if ["上級", "高級", "1級", "n1", "ネイティブ", "native"].any
          (fun w => strContains vs w) then "ネイティブレベル"
      else if ["ビジネス", "business", "2級", "n2", "流暢", "fluent"].any
          (fun w => strContains vs w) then "ビジネスレベル"
      else if ["会話", "conversational", "3級", "4級", "n3", "n4"].any
          (fun w => strContains vs w) then "日常会話レベル"
      else if ["不問", "問わない", "なし", "none"].any
          (fun w => strContains vs w) then "不問"
      else "日常会話レベル"

/-- `EngineerStructured.validate_language_level` (applied to both
`japanese_level` and `english_level`): null passes through, anything else is
normalised by `languageLevelOfString`. -/
def validate_language_level (v : Option String) : Option String :=
  match v with
  | Option.none => Option.none
  | some s => some (languageLevelOfString s)

/-- The closed output enumeration of the language-level normalizer. -/
def languageLevels : List String :=
  ["不問", "日常会話レベル", "ビジネスレベル", "ネイティブレベル"]

/-! Record construction wrappers for the required-string fields (claim C7's
"record construction" level; the remaining fields of the Pydantic models have
independent validators and do not interact with these).

The models are Pydantic v2 (`field_validator` is v2-only API), and a bare
`@field_validator(...)` runs in the default after mode: core type validation
runs first.  `title : str` and `name : str` therefore reject an explicit
`None` (and a missing argument) with a `ValidationError` before the
validator's dead `v is None` branch could run, and `experience : str = ""`
keeps its default unvalidated when the argument is absent
(`validate_default` is off in v2). -/

/-- A keyword argument as passed to a Pydantic model: absent, explicit
`None`, or a string (other runtime types are outside the modelled domain). -/
inductive PyArg where
  | absent
  | pynone
  | pystr (s : String)
deriving DecidableEq

/-- Pydantic v2 construction of a required `str` field with an after-mode
validator: `None` and a missing argument are `ValidationError`s; the
validator runs only on the accepted string. -/
def buildRequiredStr (validator : Option String → String) : PyArg → Except String String
  | PyArg.absent => Except.error "Field required"
  | PyArg.pynone => Except.error "Input should be a valid string"
  | PyArg.pystr s => Except.ok (validator (some s))

/-- Pydantic v2 construction of a `str` field with a default: the default is
used unvalidated when the argument is absent. -/
def buildDefaultStr (validator : Option String → String) (dflt : String) :
    PyArg → Except String String
  | PyArg.absent => Except.ok dflt
  | PyArg.pynone => Except.error "Input should be a valid string"
  | PyArg.pystr s => Except.ok (validator (some s))

structure RawProject where
  title : PyArg

structure ProjectRecordCore where
  title : String

/-- `ProjectStructured(title=...)`, restricted to the `title` field; a
Pydantic `ValidationError` is the `Except.error` branch. -/
def mkProjectRecord (r : RawProject) : Except String ProjectRecordCore :=
  match buildRequiredStr validate_title r.title with
  | Except.ok t => Except.ok ⟨t⟩
  | Except.error e => Except.error e

structure RawEngineer where
  name : PyArg
  experience : PyArg

structure EngineerRecordCore where
  name : String
  experience : String

/-- `EngineerStructured(name=..., experience=...)`, restricted to the two
required-string-claim fields (fields are validated in declaration order). -/
def mkEngineerRecord (r : RawEngineer) : Except String EngineerRecordCore :=
  match buildRequiredStr validate_name r.name with
  | Except.ok n =>
    match buildDefaultStr validate_experience "" r.experience with
    | Except.ok e => Except.ok ⟨n, e⟩
    | Except.error e => Except.error e
  | Except.error e => Except.error e

/-! ## A small regex engine

`src/email_classifier.py` uses `re.findall` over a fixed pattern vocabulary:
literal runs, `.` (no DOTALL), lazy `.*?`, greedy `.*`, `\s*`, `\d+`,
optional single characters (`【?`, `】?`, `日?`), the classes `[:：]` and
`[\w\s\(\)（）]+`, and literal alternations `(男性|女性)`, `(級|レベル)`.
The engine below implements Python's leftmost, preference-ordered
backtracking semantics for exactly that vocabulary.  Fuel arguments make
every function structurally recursive (kernel-evaluable); the fuel bounds
used are always sufficient because every nested call shrinks
`items.length + input.length`. -/

/-- A single-character regex element. -/
inductive RElem where
  | lit (c : Char)        -- a literal character
  | wild                  -- `.` without DOTALL: anything but newline
  | digit                 -- `\d` (ASCII and fullwidth digits)
  | space                 -- `\s`
  | cls (cs : List Char)  -- a class of listed characters, e.g. `[:：]`
  | uclass                -- the class `[\w\s\(\)（）]`

/-- Whether one input character matches an element.  `\w` is modelled on the
character ranges the repository's texts use: ASCII word characters, kana and
CJK ideographs. -/
def RElem.melem : RElem → Char → Bool
  | RElem.lit c, d => c = d
  | RElem.wild, d => d ≠ '\n'
  | RElem.digit, d => decide ('0' ≤ d ∧ d ≤ '9') || decide ('０' ≤ d ∧ d ≤ '９')
  | RElem.space, d => [' ', '\t', '\n', '\r', '\x0b', '\x0c', '　'].contains d
  | RElem.cls cs, d => cs.contains d
  | RElem.uclass, d =>
    d.isAlphanum || d = '_' ||
    decide (0x3040 ≤ d.toNat ∧ d.toNat ≤ 0x30FF) ||
    decide (0x4E00 ≤ d.toNat ∧ d.toNat ≤ 0x9FFF) ||
    [' ', '\t', '\n', '\r', '\x0b', '\x0c', '　', '(', ')', '（', '）'].contains d

/-- One item of a pattern: an element with its quantifier, or a literal
alternation. -/
inductive RItem where
  | one (e : RElem)               -- `e`
  | optE (e : RElem)              -- `e?` (greedy)
  | starL (e : RElem)             -- `e*?` (lazy)
  | starG (e : RElem)             -- `e*` (greedy)
  | plusG (e : RElem)             -- `e+` (greedy)
  | lits (ws : List (List Char))  -- `(w₁|w₂|…)` literal alternation

/-- Anchored match at the head of the input, returning the remainder after
the preferred (Python backtracking order) match.  Branches are attempted in
Python's preference order: lazy stars try the continuation first, greedy
quantifiers consume first. -/
def matchItems : Nat → List RItem → List Char → Option (List Char)
  | 0, _, _ => Option.none
  | _ + 1, [], s => some s
  | fuel + 1, RItem.one e :: rest, s =>
    match s with
    | [] => Option.none
    | c :: t => if e.melem c then matchItems fuel rest t else Option.none
  | fuel + 1, RItem.optE e :: rest, s =>
    match s with
    | [] => matchItems fuel rest []
    | c :: t =>
      if e.melem c then
        match matchItems fuel rest t with
        | some r => some r
        | Option.none => matchItems fuel rest (c :: t)
      else matchItems fuel rest (c :: t)
  | fuel + 1, RItem.starL e :: rest, s =>
    match matchItems fuel rest s with
    | some r => some r
    | Option.none =>
      match s with
      | [] => Option.none
      | c :: t =>
        if e.melem c then matchItems fuel (RItem.starL e :: rest) t else Option.none
  | fuel + 1, RItem.starG e :: rest, s =>
    match s with
    | [] => matchItems fuel rest []
    | c :: t =>
      if e.melem c then
        match matchItems fuel (RItem.starG e :: rest) t with
        | some r => some r
        | Option.none => matchItems fuel rest (c :: t)
      else matchItems fuel rest (c :: t)
  | fuel + 1, RItem.plusG e :: rest, s =>
    match s with
    | [] => Option.none
    | c :: t => if e.melem c then matchItems fuel (RItem.starG e :: rest) t else Option.none
  | fuel + 1, RItem.lits ws :: rest, s =>
    ws.findSome? (fun w =>
      if w.isPrefixOf s then matchItems fuel rest (s.drop w.length) else Option.none)

/-- Non-overlapping scan counting `re.findall` matches: try an anchored
match at each position; a successful nonempty match resumes after its end,
an empty match or a failure advances one character. -/
def fcountAux : Nat → List RItem → List Char → Nat
  | 0, _, _ => 0
  | fuel + 1, r, s =>
    match matchItems (r.length + s.length + 1) r s with
    | some rem =>
      if rem.length < s.length then 1 + fcountAux fuel r rem
      else
        match s with
        | [] => 1
        | _ :: t => 1 + fcountAux fuel r t
    | Option.none =>
      match s with
      | [] => 0
      | _ :: t => fcountAux fuel r t

/-- `len(re.findall(pattern, text))` for the supported pattern vocabulary.
(`re.IGNORECASE`, set on these calls in the source, is a no-op here: the
patterns contain no cased literal letters.) -/
def fcount (r : List RItem) (s : String) : Nat :=
  fcountAux (s.length + 1) r s.toList

/-- A literal run of pattern characters. -/
def rstr (s : String) : List RItem :=
  s.toList.map (fun c => RItem.one (RElem.lit c))

/-- `.*?` -/
def rLazy : List RItem := [RItem.starL RElem.wild]

/-- `\s*[:：]` — the separator tail shared by the bracketed field patterns. -/
def rColon : List RItem := [RItem.starG RElem.space, RItem.one (RElem.cls [':', '：'])]

/-- `【?` -/
def rOptOpen : List RItem := [RItem.optE (RElem.lit '【')]

/-- `】?` -/
def rOptClose : List RItem := [RItem.optE (RElem.lit '】')]

/-! ## `src/email_classifier.py` — pattern tables

Each Lean pattern is the translation of the Python regex string cited in the
adjacent comment. -/

/-- `ultra_strong_engineer_indicators`. -/
def ultraStrongEngineerIndicators : List (List RItem) :=
  [ rstr "要員" ++ rLazy ++ rstr "ご紹介",      -- 要員.*?ご紹介
    rstr "人材" ++ rLazy ++ rstr "ご紹介",      -- 人材.*?ご紹介
    rstr "技術者" ++ rLazy ++ rstr "ご紹介",    -- 技術者.*?ご紹介
    rstr "エンジニア" ++ rLazy ++ rstr "ご紹介", -- エンジニア.*?ご紹介
    rstr "【氏" ++ rLazy ++ rstr "名】",        -- 【氏.*?名】
    rstr "【年" ++ rLazy ++ rstr "齢】",        -- 【年.*?齢】
    rstr "【性" ++ rLazy ++ rstr "別】",        -- 【性.*?別】
    rstr "【最寄" ++ rLazy ++ rstr "駅】",      -- 【最寄.*?駅】
    rstr "【実務経験】",                         -- 【実務経験】
    rstr "【営業" ++ rLazy ++ rstr "況】",      -- 【営業.*?況】
    rstr "履歴書" ++ rLazy ++ rstr "添付",      -- 履歴書.*?添付
    rstr "職務経歴書" ++ rLazy ++ rstr "添付" ] -- 職務経歴書.*?添付

/-- `ultra_strong_project_indicators`. -/
def ultraStrongProjectIndicators : List (List RItem) :=
  [ rstr "案件" ++ rLazy ++ rstr "募集",          -- 案件.*?募集
    rstr "プロジェクト" ++ rLazy ++ rstr "募集",  -- プロジェクト.*?募集
    rstr "開発案件" ++ rLazy ++ rstr "ご紹介",    -- 開発案件.*?ご紹介
    rstr "【案件" ++ rLazy ++ rstr "名】",        -- 【案件.*?名】
    rstr "【プロジェクト" ++ rLazy ++ rstr "名】", -- 【プロジェクト.*?名】
    rstr "参画" ++ rLazy ++ rstr "募集",          -- 参画.*?募集
    rstr "【必須" ++ rLazy ++ rstr "スキル】",    -- 【必須.*?スキル】
    rstr "【歓迎" ++ rLazy ++ rstr "スキル】",    -- 【歓迎.*?スキル】
    rstr "【勤務" ++ rLazy ++ rstr "地】",        -- 【勤務.*?地】
    rstr "応募" ++ rLazy ++ rstr "締切" ]         -- 応募.*?締切

/-- `personal_info_patterns`. -/
def personalInfoPatterns : List (List RItem) :=
  [ -- 【?氏.*?名】?\s*[:：]\s*[\w\s\(\)（）]+
    rOptOpen ++ rstr "氏" ++ rLazy ++ rstr "名" ++ rOptClose ++ rColon ++
      [RItem.starG RElem.space, RItem.plusG RElem.uclass],
    -- 【?年.*?齢】?\s*[:：]\s*\d+.*?歳
    rOptOpen ++ rstr "年" ++ rLazy ++ rstr "齢" ++ rOptClose ++ rColon ++
      [RItem.starG RElem.space, RItem.plusG RElem.digit] ++ rLazy ++ rstr "歳",
    -- 【?性.*?別】?\s*[:：]\s*(男性|女性)
    rOptOpen ++ rstr "性" ++ rLazy ++ rstr "別" ++ rOptClose ++ rColon ++
      [RItem.starG RElem.space, RItem.lits ["男性".toList, "女性".toList]],
    -- 【?最寄.*?駅】?\s*[:：]
    rOptOpen ++ rstr "最寄" ++ rLazy ++ rstr "駅" ++ rOptClose ++ rColon,
    -- 【?実務経験】?\s*[:：]\s*\d+.*?年
    rOptOpen ++ rstr "実務経験" ++ rOptClose ++ rColon ++
      [RItem.starG RElem.space, RItem.plusG RElem.digit] ++ rLazy ++ rstr "年",
    -- 【?日本.*?語】?\s*[:：].*(級|レベル)
    rOptOpen ++ rstr "日本" ++ rLazy ++ rstr "語" ++ rOptClose ++ rColon ++
      [RItem.starG RElem.wild, RItem.lits ["級".toList, "レベル".toList]],
    -- 【?単.*?価】?\s*[:：]\s*\d+.*?万
    rOptOpen ++ rstr "単" ++ rLazy ++ rstr "価" ++ rOptClose ++ rColon ++
      [RItem.starG RElem.space, RItem.plusG RElem.digit] ++ rLazy ++ rstr "万",
    -- 【?稼働.*?日?】?\s*[:：]
    rOptOpen ++ rstr "稼働" ++ rLazy ++ [RItem.optE (RElem.lit '日')] ++ rOptClose ++ rColon,
    -- 【?営業.*?況】?\s*[:：]
    rOptOpen ++ rstr "営業" ++ rLazy ++ rstr "況" ++ rOptClose ++ rColon,
    -- 【?対応.*?工程】?\s*[:：]
    rOptOpen ++ rstr "対応" ++ rLazy ++ rstr "工程" ++ rOptClose ++ rColon,
    -- 【?スキル】?\s*[:：]
    rOptOpen ++ rstr "スキル" ++ rOptClose ++ rColon,
    -- 【?備.*?考】?\s*[:：]
    rOptOpen ++ rstr "備" ++ rLazy ++ rstr "考" ++ rOptClose ++ rColon ]

/-- `project_info_patterns`. -/
def projectInfoPatterns : List (List RItem) :=
  [ rOptOpen ++ rstr "案件" ++ rLazy ++ rstr "名" ++ rOptClose ++ rColon,   -- 【?案件.*?名】?\s*[:：]
    rOptOpen ++ rstr "クライアント" ++ rOptClose ++ rColon,                 -- 【?クライアント】?\s*[:：]
    rOptOpen ++ rstr "必須" ++ rLazy ++ rstr "スキル" ++ rOptClose ++ rColon, -- 【?必須.*?スキル】?\s*[:：]
    rOptOpen ++ rstr "歓迎" ++ rLazy ++ rstr "スキル" ++ rOptClose ++ rColon, -- 【?歓迎.*?スキル】?\s*[:：]
    rOptOpen ++ rstr "勤務" ++ rLazy ++ rstr "地" ++ rOptClose ++ rColon,   -- 【?勤務.*?地】?\s*[:：]
    rOptOpen ++ rstr "期" ++ rLazy ++ rstr "間" ++ rOptClose ++ rColon,     -- 【?期.*?間】?\s*[:：]
    rOptOpen ++ rstr "開始" ++ rLazy ++ rstr "日" ++ rOptClose ++ rColon,   -- 【?開始.*?日】?\s*[:：]
    rOptOpen ++ rstr "終了" ++ rLazy ++ rstr "日" ++ rOptClose ++ rColon,   -- 【?終了.*?日】?\s*[:：]
    rOptOpen ++ rstr "面談" ++ rLazy ++ rstr "回数" ++ rOptClose ++ rColon ] -- 【?面談.*?回数】?\s*[:：]

/-! ## `src/email_classifier.py` — data model and analyzers -/

/-- One entry of the `attachments` list (a Python dict; only `filename` is
read, via `attachment.get("filename", "")`). -/
structure AttachmentInput where
  filename : Option String
deriving DecidableEq

/-- The `email_data` dict.  `Option.none` models a missing key; every read
in the source goes through `email_data.get(key, "")` / `.get("attachments", [])`. -/
structure EmailInput where
  subject : Option String
  body_text : Option String
  body_html : Option String
  sender_email : Option String
  sender_name : Option String
  attachments : List AttachmentInput
deriving DecidableEq

/-- The closed `EmailType` enumeration. -/
inductive EmailType where
  | project_related
  | engineer_related
  | other
  | unclassified
deriving DecidableEq

/-- The `EmailType(value)` enum constructor: raises `ValueError` (modelled
as `Except.error`) on a string outside the closed value set. -/
def emailTypeOfString (s : String) : Except String EmailType :=
  if s = "project_related" then Except.ok EmailType.project_related
  else if s = "engineer_related" then Except.ok EmailType.engineer_related
  else if s = "other" then Except.ok EmailType.other
  else if s = "unclassified" then Except.ok EmailType.unclassified
  else Except.error "not a valid EmailType"

/-- The analysis dict built by `analyze_email_structure` (the log-only
`indicators` list is omitted). -/
structure StructureAnalysis where
  ultra_engineer_score : Nat
  ultra_project_score : Nat
  personal_info_count : Nat
  project_info_count : Nat
  structure_type : String
  confidence : ℚ
  definitive_type : Option String
deriving DecidableEq

/-- Total `re.findall` match count of a pattern list over a text
(each pattern contributes `len(matches)`). -/
def sumMatches (pats : List (List RItem)) (text : String) : Nat :=
  (pats.map (fun p => fcount p text)).sum

/-- `EmailClassifier.analyze_email_structure`: score the four pattern
tables over `f"{subject}\n{body_text}"` (ultra-strong matches weigh 20
each), then apply the decisive-judgement chain. -/
def analyze_email_structure (e : EmailInput) : StructureAnalysis :=
  let subject := e.subject.getD ""
  let body_text := e.body_text.getD ""
  let combined := subject ++ "\n" ++ body_text
  let base : StructureAnalysis :=
    { ultra_engineer_score := 20 * sumMatches ultraStrongEngineerIndicators combined
      ultra_project_score := 20 * sumMatches ultraStrongProjectIndicators combined
      personal_info_count := sumMatches personalInfoPatterns combined
      project_info_count := sumMatches projectInfoPatterns combined
      structure_type := "unknown"
      confidence := 0
      definitive_type := Option.none }
  if 20 ≤ base.ultra_engineer_score then
    { base with definitive_type := some "engineer_related", confidence := 0.95,
                structure_type := "definitive_engineer" }
  else if 20 ≤ base.ultra_project_score then
    { base with definitive_type := some "project_related", confidence := 0.95,
                structure_type := "definitive_project" }
  else if 4 ≤ base.personal_info_count then
    { base with definitive_type := some "engineer_related", confidence := 0.90,
                structure_type := "personal_profile" }
  else if 4 ≤ base.project_info_count then
    { base with definitive_type := some "project_related", confidence := 0.90,
                structure_type := "project_description" }
  else base

/-- The analysis dict of `analyze_sender_info` (log-only `indicators`
omitted). -/
structure SenderAnalysis where
  domain_type : String
  confidence : ℚ
deriving DecidableEq

/-- `sender_patterns["recruiting"]`. -/
def recruitingPatterns : List String := ["recruit", "hr", "jinzai", "career", "agent"]

/-- `sender_patterns["suspicious"]`. -/
def suspiciousPatterns : List String := ["noreply", "spam", "promo", "marketing", "no-reply"]

/-- `EmailClassifier.analyze_sender_info`: recruiting patterns are checked
against domain or sender name (first hit wins), then suspicious patterns
against the domain overwrite the result. -/
def analyze_sender_info (e : EmailInput) : SenderAnalysis :=
  let sender_email := pyLower (e.sender_email.getD "")
  let sender_name := pyLower (e.sender_name.getD "")
  if strContains sender_email "@" then
    let domain := (pySplit sender_email '@').getD 1 ""
    let afterRecruiting : SenderAnalysis :=
      if recruitingPatterns.any (fun p => strContains domain p || strContains sender_name p)
      then { domain_type := "recruiting", confidence := 0.7 }
      else { domain_type := "unknown", confidence := 0.0 }
    if suspiciousPatterns.any (fun p => strContains domain p)
    then { domain_type := "suspicious", confidence := 0.8 }
    else afterRecruiting
  else { domain_type := "unknown", confidence := 0.0 }

/-- The analysis dict of `analyze_attachments`. -/
structure AttachmentAnalysis where
  total_count : Nat
  engineer_indicators : List String
  project_indicators : List String
  resume_files : List AttachmentInput
  confidence : ℚ
  strong_type : Option String
deriving DecidableEq

/-- `engineer_patterns` of `analyze_attachments` (all literal regexes, so
`re.search` is substring containment on the lowered filename). -/
def attachmentEngineerPatterns : List String :=
  ["履歴書", "職務経歴", "スキルシート", "resume", "cv", "profile"]

/-- `project_patterns` of `analyze_attachments`. -/
def attachmentProjectPatterns : List String :=
  ["案件", "project", "proposal", "詳細", "仕様", "要件"]

/-- `resume_extensions`. -/
def resumeExtensions : List String := [".docx", ".doc", ".pdf", ".xlsx", ".xls"]

/-- Body of the per-attachment `for` loop of `analyze_attachments`. -/
def attachmentStep (acc : AttachmentAnalysis) (a : AttachmentInput) : AttachmentAnalysis :=
  let filename := pyLower (a.filename.getD "")
  -- resume-file detection: for each extension, a keyword hit appends the
  -- attachment; failing that, the bare extensions .docx/.doc/.pdf suffice.
  let rf :=
    resumeExtensions.foldl
      (fun (st : List AttachmentInput × Bool) ext =>
        if strEndsWith filename ext then
          let st1 :=
            if attachmentEngineerPatterns.any (fun p => strContains filename p) then
              (st.1 ++ [a], true)
            else st
          if !st1.2 && [".docx", ".doc", ".pdf"].contains ext then (st1.1 ++ [a], true)
          else st1
        else st)
      (acc.resume_files, false)
  let acc := { acc with resume_files := rf.1 }
  -- engineer-related filename patterns
  let acc :=
    attachmentEngineerPatterns.foldl
      (fun (acc : AttachmentAnalysis) p =>
        if strContains filename p then
          { acc with engineer_indicators := acc.engineer_indicators ++ [filename],
                     confidence := 0.9, strong_type := some "engineer_related" }
        else acc)
      acc
  -- project-related filename patterns
  attachmentProjectPatterns.foldl
    (fun (acc : AttachmentAnalysis) p =>
      if strContains filename p then
        let acc := { acc with project_indicators := acc.project_indicators ++ [filename] }
        if acc.confidence < 0.8 then
          { acc with confidence := 0.8, strong_type := some "project_related" }
        else acc
      else acc)
    acc

/-- `EmailClassifier.analyze_attachments`. -/
def analyze_attachments (e : EmailInput) : AttachmentAnalysis :=
  let init : AttachmentAnalysis :=
    { total_count := e.attachments.length, engineer_indicators := [],
      project_indicators := [], resume_files := [], confidence := 0.0,
      strong_type := Option.none }
  if e.attachments.isEmpty then init
  else
    let res := e.attachments.foldl attachmentStep init
    if res.resume_files.isEmpty then res
    else { res with confidence := 0.95, strong_type := some "engineer_related" }

/-- Model of `re.sub(r"<[^>]+>", "", html)`: at each `<`, a greedy run of
non-`>` characters followed by `>` is removed (the span up to the first
later `>`, provided at least one character lies between); otherwise the
character is kept.  Fuel makes the recursion structural. -/
def stripTagsAux : Nat → List Char → List Char
  | 0, s => s
  | _ + 1, [] => []
  | fuel + 1, c :: t =>
    if c = '<' then
      match t.findIdx? (fun d => d = '>') with
      | some i => if 1 ≤ i then stripTagsAux fuel (t.drop (i + 1)) else c :: stripTagsAux fuel t
      | Option.none => c :: stripTagsAux fuel t
    else c :: stripTagsAux fuel t

def stripTags (s : String) : String :=
  String.mk (stripTagsAux (s.length + 1) s.toList)

/-- `important_keywords` of `smart_content_extraction`. -/
def importantKeywords : List String :=
  ["案件", "プロジェクト", "開発", "必須スキル", "単価", "期間", "場所", "エンジニア",
   "履歴書", "経験", "希望", "技術者", "スキル", "資格", "要員", "人材", "ご紹介"]

/-- `EmailClassifier.smart_content_extraction`: bodies of at most 2000
characters pass through; longer bodies are reduced to a 800-character head,
up to two keyword-dense line windows, and a 300-character tail. -/
def smart_content_extraction (e : EmailInput) : String :=
  let body_text := e.body_text.getD ""
  let body_html := e.body_html.getD ""
  let body_text := if body_text = "" && body_html ≠ "" then stripTags body_html else body_text
  if body_text.length ≤ 2000 then body_text
  else
    let head_part := String.mk (body_text.toList.take 800)
    let lines := pySplit body_text '\n'
    let important_parts :=
      (List.range lines.length).filterMap (fun i =>
        let line := lines.getD i ""
        let line_score := (importantKeywords.filter (fun k => strContains line k)).length
        if 2 ≤ line_score then
          let start_idx := i - 1                      -- max(0, i-1) via Nat subtraction
          let end_idx := min lines.length (i + 2)
          some (pyJoin "\n" ((lines.drop start_idx).take (end_idx - start_idx)))
        else Option.none)
    let tail_part :=
      if 300 < body_text.length then String.mk (body_text.toList.drop (body_text.length - 300))
      else ""
    let extracted := head_part
    let extracted :=
      if important_parts.isEmpty then extracted
      else extracted ++ "\n\n【重要段落】\n" ++ pyJoin "\n" (important_parts.take 2)
    if tail_part ≠ "" then extracted ++ "\n\n【末尾部分】\n" ++ tail_part else extracted

/-- The three weight tiers of one lexicon (超高权重 25.0 / 高权重 5.0 /
中权重 1.0). -/
structure KeywordTiers where
  ultra : List String
  high : List String
  mid : List String

/-- `keywords["project_related"]`. -/
def projectKeywords : KeywordTiers where
  ultra := ["案件募集", "プロジェクト募集", "開発案件ご紹介", "新規案件", "緊急案件",
            "案件詳細", "参画募集"]
  high := ["案件", "プロジェクト", "募集", "参画", "必須スキル", "歓迎スキル", "勤務地",
           "常駐", "クライアント", "面談", "応募"]
  mid := ["開発", "設計", "構築", "保守", "運用", "テスト", "要件定義", "基本設計",
          "詳細設計"]

/-- `keywords["engineer_related"]`. -/
def engineerKeywords : KeywordTiers where
  ultra := ["要員ご紹介", "人材ご紹介", "技術者ご紹介", "エンジニアご紹介", "履歴書添付",
            "職務経歴書添付", "スキルシート添付", "個人紹介", "人材情報", "技術者情報"]
  high := ["エンジニア", "技術者", "開発者", "プログラマー", "履歴書", "職務経歴",
           "希望単価", "稼働可能", "営業状況", "提案のみ", "面談可能"]
  mid := ["経験年数", "開発経験", "業務経歴", "資格", "学歴", "日本語レベル",
          "コミュニケーション", "真面目", "責任感"]

/-- The `self.keywords` dict. -/
def keywordTable : List (String × KeywordTiers) :=
  [("project_related", projectKeywords), ("engineer_related", engineerKeywords)]

/-- `EmailClassifier.calculate_keyword_score`: substring hits on the
lowercased text, weighted 25 / 5 / 1 per tier; also returns the annotated
found-keyword list. -/
def calculate_keyword_score (text : String) (email_type : String) : ℚ × List String :=
  match keywordTable.find? (fun p => p.1 == email_type) with
  | Option.none => (0.0, [])
  | some (_, tiers) =>
    let text_lower := pyLower text
    let f1 := tiers.ultra.filter (fun k => strContains text_lower k)
    let f2 := tiers.high.filter (fun k => strContains text_lower k)
    let f3 := tiers.mid.filter (fun k => strContains text_lower k)
    (25.0 * (f1.length : ℚ) + 5.0 * (f2.length : ℚ) + 1.0 * (f3.length : ℚ),
     f1.map (fun k => "超高:" ++ k) ++ f2.map (fun k => "高:" ++ k) ++
       f3.map (fun k => "中:" ++ k))

/-- `exclusion_keywords` (spam lexicon). -/
def exclusionKeywords : List String :=
  ["広告", "宣伝", "PR", "セール", "キャンペーン", "限定オファー", "今すぐクリック",
   "特別価格", "無料プレゼント", "副業"]

/-- The exclusion-keyword hit count of `check_spam_indicators`: the number
of exclusion keywords contained in the lowercased `f"{subject} {body}"`. -/
def spamKeywordCount (e : EmailInput) : Nat :=
  let subject := pyLower (e.subject.getD "")
  let body_text := pyLower (e.body_text.getD "")
  let combined := subject ++ " " ++ body_text
  (exclusionKeywords.filter (fun k => strContains combined k)).length

/-- The suspicious-sender half of `check_spam_indicators`. -/
def senderSuspicious (e : EmailInput) : Bool :=
  let sender_email := pyLower (e.sender_email.getD "")
  suspiciousPatterns.any (fun p => strContains sender_email p)

/-- `EmailClassifier.check_spam_indicators`: `spam_count >= 2 or
sender_suspicious`. -/
def check_spam_indicators (e : EmailInput) : Bool :=
  decide (2 ≤ spamKeywordCount e) || senderSuspicious e

/-! ## JSON values, `json.dumps`-style serialization, `json.loads` model

The fragment models what the repository actually pushes through `json`:
objects, arrays, escape-free strings, natural-number literals and the three
keywords.  (Floats, negative numbers, escape sequences and `\uXXXX` forms
never appear in the claims' inputs and are outside the model.)  Mutual
inductives keep every recursion structural. -/

/-- `'\x7b'` — the opening brace character. -/
def lbChar : Char := Char.ofNat 123

/-- `'\x7d'` — the closing brace character. -/
def rbChar : Char := Char.ofNat 125

mutual
inductive Json where
  | null
  | bool (b : Bool)
  | num (n : Nat)
  | str (s : String)
  | arr (xs : JsonList)
  | obj (fs : JsonFields)

inductive JsonList where
  | nil
  | cons (v : Json) (t : JsonList)

inductive JsonFields where
  | nil
  | cons (k : String) (v : Json) (t : JsonFields)
end

/-- Decimal digit characters of a natural number, most significant first
(via Mathlib's `Nat.digits`, which gives least significant first). -/
def natDigitsChars (n : Nat) : List Char :=
  ((Nat.digits 10 n).map (fun d => Char.ofNat (48 + d))).reverse

/-- Decimal rendering of a natural number. -/
def serNat (n : Nat) : String :=
  if n = 0 then "0" else String.mk (natDigitsChars n)

mutual
/-- Serialization, with `json.dumps`'s default separators `", "` / `": "`. -/
def Json.ser : Json → String
  | Json.null => "null"
  | Json.bool true => "true"
  | Json.bool false => "false"
  | Json.num n => serNat n
  | Json.str s => "\"" ++ s ++ "\""
  | Json.arr xs => "[" ++ JsonList.serItems xs ++ "]"
  | Json.obj fs => "\x7b" ++ JsonFields.serFields fs ++ "\x7d"

def JsonList.serItems : JsonList → String
  | JsonList.nil => ""
  | JsonList.cons v JsonList.nil => v.ser
  | JsonList.cons v t => v.ser ++ ", " ++ JsonList.serItems t

def JsonFields.serFields : JsonFields → String
  | JsonFields.nil => ""
  | JsonFields.cons k v JsonFields.nil => "\"" ++ k ++ "\": " ++ v.ser
  | JsonFields.cons k v t => "\"" ++ k ++ "\": " ++ v.ser ++ ", " ++ JsonFields.serFields t
end

/-- JSON insignificant whitespace (RFC 8259; also what `json.loads`
skips). -/
def jsonWs (c : Char) : Bool :=
  c = ' ' || c = '\t' || c = '\n' || c = '\r'

def skipWs (cs : List Char) : List Char :=
  cs.dropWhile jsonWs

def isDigitChar (c : Char) : Bool :=
  decide ('0' ≤ c ∧ c ≤ '9')

/-- Numeric value of a run of decimal digit characters. -/
def parseNatChars (ds : List Char) : Nat :=
  Nat.ofDigits 10 ((ds.map (fun c => c.toNat - 48)).reverse)

/-- String-literal body after the opening quote: everything up to the next
quote (the modelled strings contain no escapes). -/
def parseStrAux : List Char → Option (List Char × List Char)
  | [] => Option.none
  | c :: t =>
    if c = '"' then some ([], t)
    else (parseStrAux t).map (fun p => (c :: p.1, p.2))

mutual
/-- One JSON value (leading whitespace allowed), returning the raw
remainder. -/
def parseVal : Nat → List Char → Option (Json × List Char)
  | 0, _ => Option.none
  | fuel + 1, cs =>
    match skipWs cs with
    | [] => Option.none
    | c :: t =>
      if c = '"' then
        (parseStrAux t).map (fun p => (Json.str (String.mk p.1), p.2))
      else if c = lbChar then
        match skipWs t with
        | d :: t2 =>
          if d = rbChar then some (Json.obj JsonFields.nil, t2)
          else (parseFields fuel (skipWs t)).map (fun p => (Json.obj p.1, p.2))
        | [] => Option.none
      else if c = '[' then
        match skipWs t with
        | d :: t2 =>
          if d = ']' then some (Json.arr JsonList.nil, t2)
          else (parseItems fuel (skipWs t)).map (fun p => (Json.arr p.1, p.2))
        | [] => Option.none
      else if isDigitChar c then
        some (Json.num (parseNatChars ((c :: t).takeWhile isDigitChar)),
              (c :: t).dropWhile isDigitChar)
      else if ['t', 'r', 'u', 'e'].isPrefixOf (c :: t) then some (Json.bool true, (c :: t).drop 4)
      else if ['f', 'a', 'l', 's', 'e'].isPrefixOf (c :: t) then some (Json.bool false, (c :: t).drop 5)
      else if ['n', 'u', 'l', 'l'].isPrefixOf (c :: t) then some (Json.null, (c :: t).drop 4)
      else Option.none

/-- A nonempty `"key": value` sequence, consuming the closing brace. -/
def parseFields : Nat → List Char → Option (JsonFields × List Char)
  | 0, _ => Option.none
  | fuel + 1, cs =>
    match cs with
    | c :: t =>
      if c = '"' then
        match parseStrAux t with
        | some (ks, r1) =>
          match skipWs r1 with
          | c2 :: r2 =>
            if c2 = ':' then
              match parseVal fuel r2 with
              | some (v, r3) =>
                match skipWs r3 with
                | d :: r4 =>
                  if d = ',' then
                    (parseFields fuel (skipWs r4)).map
                      (fun p => (JsonFields.cons (String.mk ks) v p.1, p.2))
                  else if d = rbChar then
                    some (JsonFields.cons (String.mk ks) v JsonFields.nil, r4)
                  else Option.none
                | [] => Option.none
              | Option.none => Option.none
            else Option.none
          | [] => Option.none
        | Option.none => Option.none
      else Option.none
    | [] => Option.none

/-- A nonempty value sequence, consuming the closing bracket. -/
def parseItems : Nat → List Char → Option (JsonList × List Char)
  | 0, _ => Option.none
  | fuel + 1, cs =>
    match parseVal fuel cs with
    | some (v, r1) =>
      match skipWs r1 with
      | d :: r2 =>
        if d = ',' then (parseItems fuel r2).map (fun p => (JsonList.cons v p.1, p.2))
        else if d = ']' then some (JsonList.cons v JsonList.nil, r2)
        else Option.none
      | [] => Option.none
    | Option.none => Option.none
end

/-- Model of `json.loads` on the fragment: one value, surrounded by nothing
but whitespace (`.strip()` before the call in the source is subsumed).  The
fuel is a modelling artifact of the termination argument; `2·|s| + 2` is
enough for every value whose serialization fits in `s`. -/
def json_loads (s : String) : Option Json :=
  match parseVal (2 * s.length + 2) s.toList with
  | some (v, rest) => if skipWs rest = [] then some v else Option.none
  | Option.none => Option.none

deriving instance DecidableEq for Json

/-! ## `src/ai_services/extraction_service.py` -/

/-- Characters other than braces. -/
def nonBrace (c : Char) : Bool :=
  c ≠ lbChar && c ≠ rbChar

/-- The tail of a leftmost match of `\x7b[^\x7b\x7d]*(?:\x7b[^\x7b\x7d]*\x7d[^\x7b\x7d]*)*\x7d`
after its opening brace: alternating non-brace runs and depth-one blocks,
ended by the closing brace.  Backtracking never helps for this pattern
(character classes are disjoint from the braces), so a deterministic scan
implements Python's preferred match exactly. -/
def mb2Tail : Nat → List Char → Option (List Char)
  | 0, _ => Option.none
  | fuel + 1, s =>
    match s.dropWhile nonBrace with
    | c :: r =>
      if c = rbChar then some r
      else
        match r.dropWhile nonBrace with
        | d :: r2 => if d = rbChar then mb2Tail fuel r2 else Option.none
        | [] => Option.none
    | [] => Option.none

/-- `re.findall` of the block pattern: scan left to right, collect each
non-overlapping match, resume after its end. -/
def findAllB2 : Nat → List Char → List (List Char)
  | 0, _ => []
  | _ + 1, [] => []
  | fuel + 1, c :: t =>
    if c = lbChar then
      match mb2Tail (t.length + 1) t with
      | some r => ((c :: t).take ((c :: t).length - r.length)) :: findAllB2 fuel r
      | Option.none => findAllB2 fuel t
    else findAllB2 fuel t

/-- The `for match in matches: try json.loads(match)` loop. -/
def firstParse : List (List Char) → Option Json
  | [] => Option.none
  | m :: ms =>
    match json_loads (String.mk m) with
    | some j => some j
    | Option.none => firstParse ms

/-- The fallback brace-depth scan of `_extract_json_from_text`: from the
first `\x7b`, the span up to the first position where the raw brace count
returns to zero; that single span is tried once (`break` on failure). -/
def balancedSpanAux : List Char → Nat → List Char → Option (List Char)
  | [], _, _ => Option.none
  | c :: t, depth, acc =>
    if c = lbChar then balancedSpanAux t (depth + 1) (c :: acc)
    else if c = rbChar then
      if depth = 1 then some (c :: acc).reverse
      else balancedSpanAux t (depth - 1) (c :: acc)
    else balancedSpanAux t depth (c :: acc)

def braceScan (cs : List Char) : Option Json :=
  match cs.dropWhile (fun c => c ≠ lbChar) with
  | [] => Option.none
  | s =>
    match balancedSpanAux s 0 [] with
    | some span => json_loads (String.mk span)
    | Option.none => Option.none

/-- `ExtractionService._extract_json_from_text`: (a) parse the whole
(stripped) text; (b) try each regex block match; (c) brace-depth scan from
the first opening brace. -/
def extract_json_from_text (text : String) : Option Json :=
  match json_loads text with
  | some j => some j
  | Option.none =>
    match firstParse (findAllB2 (text.toList.length + 1) text.toList) with
    | some j => some j
    | Option.none => braceScan text.toList

/-- The primary→fallback orchestration shared by `extract_project_info`
and `extract_engineer_info`.  A client call is an input
`Except String (Option α)`: `error` = the call raised (`except` branch),
`ok none` = the call completed without a usable record, `ok (some r)` =
extracted record.  The second component counts fallback-client attempts. -/
def extractInfoRuns {α : Type} (primary fallback : Except String (Option α)) :
    Option α × Nat :=
  match primary with
  | Except.ok (some r) => (some r, 0)
  | _ =>
    match fallback with
    | Except.ok (some r) => (some r, 1)
    | _ => (Option.none, 1)

/-- `ExtractionService.extract_project_info`. -/
def extract_project_info (primary fallback : Except String (Option ProjectRecordCore)) :
    Option ProjectRecordCore :=
  (extractInfoRuns primary fallback).1

/-- `ExtractionService.extract_engineer_info`. -/
def extract_engineer_info (primary fallback : Except String (Option EngineerRecordCore)) :
    Option EngineerRecordCore :=
  (extractInfoRuns primary fallback).1

/-! ## `src/email_classifier.py` — AI branch and decision pipeline -/

/-- `re.search(r"\x7b.*\x7d", content, re.DOTALL)`: the leftmost match runs
from the first opening brace to the last closing brace of the whole text
(greedy `.*` under DOTALL), provided that closing brace lies after it. -/
def braceSpan (cs : List Char) : Option (List Char) :=
  match cs.findIdx? (fun c => c = lbChar) with
  | Option.none => Option.none
  | some i =>
    match cs.reverse.findIdx? (fun c => c = rbChar) with
    | Option.none => Option.none
    | some jr =>
      let j := cs.length - 1 - jr
      if i < j then some ((cs.drop i).take (j - i + 1)) else Option.none

/-- `dict.get` on parsed-object fields: later duplicate keys overwrite
earlier ones, as in the dict `json.loads` builds. -/
def fieldsGet : JsonFields → String → Option Json
  | JsonFields.nil, _ => Option.none
  | JsonFields.cons k v t, key =>
    match fieldsGet t key with
    | some w => some w
    | Option.none => if k = key then some v else Option.none

/-- Whether `float(result.get("confidence", 0.5))` completes: absent values
default, numbers and booleans convert, numeric strings convert (digit
strings in the modelled fragment), everything else raises (caught by the
outer handler). -/
def confOk : Option Json → Bool
  | Option.none => true
  | some (Json.num _) => true
  | some (Json.bool _) => true
  | some (Json.str s) => !s.toList.isEmpty && s.toList.all isDigitChar
  | some _ => false

/-- `EmailClassifier._extract_category_from_text` (the non-JSON fallback):
substring checks on the lowercased AI text. -/
def extract_category_from_text (text : String) : EmailType :=
  let text_lower := pyLower text
  if strContains text_lower "engineer" then EmailType.engineer_related
  else if strContains text_lower "project" then EmailType.project_related
  else if strContains text_lower "other" then EmailType.other
  else EmailType.unclassified

/-- The response-parsing half of `_call_ai_classifier`: extract a brace
span (else the whole content), `json.loads` it — parse failure falls back
to `_extract_category_from_text` — then map the `category` string by
substring; a non-dict result, an unusable `confidence`, or a non-string
`category` raises past the inner handler and yields `unclassified` from the
outer one. -/
def aiContentToType (content : String) : EmailType :=
  let candidate :=
    match braceSpan content.toList with
    | some sp => String.mk sp
    | Option.none => content
  match json_loads candidate with
  | Option.none => extract_category_from_text content
  | some (Json.obj fs) =>
    if confOk (fieldsGet fs "confidence") then
      match fieldsGet fs "category" with
      | some (Json.str category_str) =>
        if strContains category_str "engineer" then EmailType.engineer_related
        else if strContains category_str "project" then EmailType.project_related
        else if strContains category_str "other" then EmailType.other
        else EmailType.unclassified
      | Option.none => EmailType.unclassified  -- default "unclassified" matches no substring
      | some _ => EmailType.unclassified       -- TypeError at the `in` check
    else EmailType.unclassified                -- ValueError from float(...)
  | some _ => EmailType.unclassified           -- AttributeError at result.get

/-- `EmailClassifier._call_ai_classifier`: the provider call is an input;
a raised call (or unsupported provider) hits the outer handler and yields
`unclassified`. -/
def call_ai_classifier (resp : Except String String) : EmailType :=
  match resp with
  | Except.error _ => EmailType.unclassified
  | Except.ok content => aiContentToType content

/-- `EmailClassifier._fallback_classification` (the keyword lists are
logged only). -/
def fallback_classification (content : String) (project_score engineer_score : ℚ)
    (_project_keywords _engineer_keywords : List String) : EmailType :=
  if engineer_score > project_score ∧ engineer_score > 3.0 then EmailType.engineer_related
  else if project_score > engineer_score ∧ project_score > 3.0 then EmailType.project_related
  else if ["説明会", "案内", "勉強会", "セミナー"].any
      (fun w => strContains (pyLower content) w) then EmailType.other
  else EmailType.unclassified

/-- The body of `classify_email`'s `try` block.  `ai = none` models "no AI
client configured"; `ai = some resp` models a configured client whose
eventual call outcome is `resp`.  The only fallible steps are the
`EmailType(...)` constructions. -/
def classifyPipeline (e : EmailInput) (ai : Option (Except String String)) :
    Except String EmailType :=
  -- 1. spam gate
  if check_spam_indicators e then Except.ok EmailType.unclassified
  else
    -- 2./3. structure analysis, decisive short-circuit
    let structure_analysis := analyze_email_structure e
    match structure_analysis.definitive_type with
    | some ty => emailTypeOfString ty
    | Option.none =>
      -- 4. attachment analysis
      let attachment_analysis := analyze_attachments e
      if attachment_analysis.confidence > 0.8 then
        match attachment_analysis.strong_type with
        | some ty => emailTypeOfString ty
        | Option.none => Except.error "EmailType(None)"
      else
        -- 5. content extraction and keyword scores
        let extracted_content := smart_content_extraction e
        let ps := calculate_keyword_score extracted_content "project_related"
        let es := calculate_keyword_score extracted_content "engineer_related"
        let sender_analysis := analyze_sender_info e
        -- 6. combined scores with structure weights and the recruiting bonus
        let final_engineer_score :=
          es.1 + (structure_analysis.personal_info_count : ℚ) * 3 +
            (structure_analysis.ultra_engineer_score : ℚ) * 0.5
        let final_project_score :=
          ps.1 + (structure_analysis.project_info_count : ℚ) * 3 +
            (structure_analysis.ultra_project_score : ℚ) * 0.5
        let final_engineer_score :=
          if sender_analysis.domain_type = "recruiting" then final_engineer_score + 5.0
          else final_engineer_score
        -- 7. high-confidence thresholds
        if final_engineer_score > final_project_score + 5.0 ∧ final_engineer_score > 10.0 then
          Except.ok EmailType.engineer_related
        else if final_project_score > final_engineer_score + 5.0 ∧ final_project_score > 10.0 then
          Except.ok EmailType.project_related
        else
          -- 8. AI call when configured, else 9. deterministic fallback
          match ai with
          | some resp => Except.ok (call_ai_classifier resp)
          | Option.none =>
            Except.ok (fallback_classification extracted_content final_project_score
              final_engineer_score ps.2 es.2)

/-- `EmailClassifier.classify_email`: the surrounding
`try ... except Exception: return EmailType.UNCLASSIFIED`. -/
def classify_email (e : EmailInput) (ai : Option (Except String String)) : EmailType :=
  match classifyPipeline e ai with
  | Except.ok t => t
  | Except.error _ => EmailType.unclassified

/-! ## Predicates for the JSON round-trip development -/

/-- Keys of an object's field list. -/
def keysOf : JsonFields → List String
  | JsonFields.nil => []
  | JsonFields.cons k _ t => k :: keysOf t

/-- Characters allowed inside modelled JSON strings for the round-trip
theorems: no quote, no backslash (escape sequences are outside the
fragment), no braces (so the block regex sees only structural braces). -/
def jsonStrChar (c : Char) : Bool :=
  c ≠ '"' && c ≠ '\\' && c ≠ lbChar && c ≠ rbChar

/-- Duplicate-freedom of a key list (`json.loads` builds a dict, so a
well-formed object has distinct keys). -/
def strListNodup : List String → Bool
  | [] => true
  | x :: t => !t.contains x && strListNodup t

mutual
/-- Well-formedness of a value within the modelled fragment. -/
def wfV : Json → Bool
  | Json.null => true
  | Json.bool _ => true
  | Json.num _ => true
  | Json.str s => s.toList.all jsonStrChar
  | Json.arr xs => wfL xs
  | Json.obj fs => wfF fs && strListNodup (keysOf fs)

def wfL : JsonList → Bool
  | JsonList.nil => true
  | JsonList.cons v t => wfV v && wfL t

def wfF : JsonFields → Bool
  | JsonFields.nil => true
  | JsonFields.cons k v t => k.toList.all jsonStrChar && wfV v && wfF t
end

mutual
/-- Structural size, a fuel bound for the parser. -/
def jsizeV : Json → Nat
  | Json.null => 1
  | Json.bool _ => 1
  | Json.num _ => 1
  | Json.str _ => 1
  | Json.arr xs => 1 + jsizeL xs
  | Json.obj fs => 1 + jsizeF fs

def jsizeL : JsonList → Nat
  | JsonList.nil => 1
  | JsonList.cons v t => 1 + jsizeV v + jsizeL t

def jsizeF : JsonFields → Nat
  | JsonFields.nil => 1
  | JsonFields.cons _ v t => 1 + jsizeV v + jsizeF t
end

mutual
/-- Brace-nesting depth of the serialization (objects contribute braces,
arrays do not). -/
def bdV : Json → Nat
  | Json.null => 0
  | Json.bool _ => 0
  | Json.num _ => 0
  | Json.str _ => 0
  | Json.arr xs => bdL xs
  | Json.obj fs => 1 + bdF fs

def bdL : JsonList → Nat
  | JsonList.nil => 0
  | JsonList.cons v t => max (bdV v) (bdL t)

def bdF : JsonFields → Nat
  | JsonFields.nil => 0
  | JsonFields.cons _ v t => max (bdV v) (bdF t)
end

/-- Prose characters for the round-trip theorem: anything except the five
JSON structural characters braces, brackets and the quote. -/
def proseChar (c : Char) : Bool :=
  c ≠ lbChar && c ≠ rbChar && c ≠ '[' && c ≠ ']' && c ≠ '"'

/-- No digit at the head (the only lookahead the number parser needs). -/
def noDigitHead : List Char → Prop
  | [] => True
  | c :: _ => isDigitChar c = false

/-- A brace-free character list. -/
def braceFree (cs : List Char) : Prop :=
  ∀ c ∈ cs, nonBrace c = true

/-- Depth-≤1 brace shapes: concatenations of brace-free chunks and
complete `\x7b…\x7d` blocks with brace-free interiors — exactly the texts
on which the block regex is total. -/
inductive D1 : List Char → Prop where
  | nil : D1 []
  | chunk (a t : List Char) : braceFree a → D1 t → D1 (a ++ t)
  | block (b t : List Char) : braceFree b → D1 t → D1 (lbChar :: b ++ rbChar :: t)

/-! ## Concrete inputs used by witnesses and counterexamples -/

/-- A minimal ultra-strong engineer email (subject 要員ご紹介). -/
def eStructW : EmailInput :=
  ⟨some "要員ご紹介", some "", Option.none, some "a@b.co.jp", Option.none, []⟩

/-- A plain email whose only attachment is a bare .pdf file. -/
def ePdfW : EmailInput :=
  ⟨some "", some "", Option.none, some "x@y.z", Option.none, [⟨some "経歴書本体.pdf"⟩]⟩

/-- A plain email whose only attachment is a bare .xlsx file (a
resume-typical extension per the claim's list, but not one of the bare
auto-resume extensions in the code). -/
def eXlsxCE : EmailInput :=
  ⟨some "", some "", Option.none, some "x@y.z", Option.none, [⟨some "data.xlsx"⟩]⟩

/-- A keyword body worth 4 engineer points and 8 project points. -/
def bodyC9 : String := "資格 学歴 真面目 責任感 勤務地 設計 保守 運用"

/-- The C9 pair: identical emails except for the sender; `recruit.jp` is a
recruiting domain, `example.jp` is not. -/
def eRecCE1 : EmailInput :=
  ⟨some "", some bodyC9, Option.none, some "info@recruit.jp", some "", []⟩

def eRecCE2 : EmailInput :=
  ⟨some "", some bodyC9, Option.none, some "info@example.jp", some "", []⟩


/-- The inner two-level object `\x7b"b": \x7b"c": 1\x7d\x7d`. -/
def jInner : Json :=
  Json.obj (JsonFields.cons "b" (Json.obj (JsonFields.cons "c" (Json.num 1) JsonFields.nil))
    JsonFields.nil)

/-- The depth-3 object `\x7b"a": \x7b"b": \x7b"c": 1\x7d\x7d\x7d`. -/
def jDeep : Json := Json.obj (JsonFields.cons "a" jInner JsonFields.nil)

/-- A depth-2 object field list, `\x7b"a": \x7b"b": 1\x7d\x7d`, used by the
round-trip witness. -/
def fsW : JsonFields :=
  JsonFields.cons "a" (Json.obj (JsonFields.cons "b" (Json.num 1) JsonFields.nil)) JsonFields.nil

/-! ## Theorems -/

/-- Generic preservation of an invariant along `List.foldl`. -/
theorem foldl_inv {α β : Type} {f : β → α → β} {P : β → Prop}
    (h : ∀ b a, P b → P (f b a)) : ∀ (l : List α) (b : β), P b → P (l.foldl f b) := by
  intro l
  induction l with
  | nil => intro b hb; exact hb
  | cons a t ih => intro b hb; exact ih (f b a) (h b a hb)

/-- C6 — The language-level normalizer maps every string into the closed
four-value set. -/
theorem languageLevelOfString_mem (s : String) :
    languageLevelOfString s ∈ languageLevels := by
  have htable : ∀ p ∈ languageLevelMappings, p.2 ∈ languageLevels := by decide
  unfold languageLevelOfString
  rcases hfind : languageLevelMappings.findSome?
      (fun p => if strContains (pyLower s) p.1 then some p.2 else Option.none) with _ | m
  · rcases hdig : ((pyLower s).toList.filter (fun c => decide ('1' ≤ c ∧ c ≤ '5'))).head? with _ | c
    · simp only [hfind, hdig]
      split_ifs <;> simp [languageLevels]
    · simp only [hfind, hdig]
      split_ifs <;> simp [languageLevels]
  · obtain ⟨p, hp, hfp⟩ := List.exists_of_findSome?_eq_some hfind
    have : m = p.2 := by
      by_cases hc : strContains (pyLower s) p.1 = true
      · simp [hc] at hfp; exact hfp.symm
      · simp [hc] at hfp
    simp only [hfind]
    exact this ▸ htable p hp

/-- C6 — The language-level normalizer is idempotent on its four closed
output values; it is total on strings: every non-null input maps to one of
{不問, 日常会話レベル, ビジネスレベル, ネイティブレベル} (never null), with
unmapped input defaulting to 日常会話レベル; a null input stays null. -/
theorem language_level_normalizer_spec :
    (validate_language_level (some "不問") = some "不問" ∧
     validate_language_level (some "日常会話レベル") = some "日常会話レベル" ∧
     validate_language_level (some "ビジネスレベル") = some "ビジネスレベル" ∧
     validate_language_level (some "ネイティブレベル") = some "ネイティブレベル") ∧
    (∀ s : String, validate_language_level (some s) = some (languageLevelOfString s) ∧
       languageLevelOfString s ∈ languageLevels) ∧
    validate_language_level Option.none = Option.none ∧
    languageLevelOfString "謎" = "日常会話レベル" := by
  refine ⟨by decide, fun s => ⟨rfl, languageLevelOfString_mem s⟩, rfl, by decide⟩

/-- C7 counterexample: construction with a null required string does not
succeed with a sentinel — Pydantic v2 core type validation rejects the
`None` with a `ValidationError` before the after-mode validator runs — and a
record built with `experience` absent keeps the unvalidated empty-string
default, so that field can be empty. -/
theorem required_string_null_counterexample :
    (∃ e, mkProjectRecord ⟨PyArg.pynone⟩ = Except.error e) ∧
    (∃ e, mkEngineerRecord ⟨PyArg.pynone, PyArg.pystr "5年"⟩ = Except.error e) ∧
    (∃ e, mkEngineerRecord ⟨PyArg.pystr "山田", PyArg.pynone⟩ = Except.error e) ∧
    mkEngineerRecord ⟨PyArg.pystr "山田", PyArg.absent⟩ = Except.ok ⟨"山田", ""⟩ :=
  ⟨⟨"Input should be a valid string", rfl⟩, ⟨"Input should be a valid string", rfl⟩,
   ⟨"Input should be a valid string", rfl⟩, rfl⟩

/-- C7 (amended) — Only the empty-string half of the claim holds: a required
string field passed as the *empty* string is accepted and the after-mode
validator substitutes the fixed sentinel (案件名不明 / 名前不明 / 不明), and a
successfully constructed record never has an empty `title` or `name`; an
explicit null is rejected by core type validation with a `ValidationError`
before the validator runs, and an absent `experience` keeps the unvalidated
empty-string default. -/
theorem required_string_sentinels_empty :
    (∀ r : RawProject, r.title = PyArg.pystr "" →
       mkProjectRecord r = Except.ok ⟨"案件名不明"⟩) ∧
    (∀ r : RawEngineer, r.name = PyArg.pystr "" → r.experience ≠ PyArg.pynone →
       ∃ e, mkEngineerRecord r = Except.ok ⟨"名前不明", e⟩) ∧
    (∀ r : RawEngineer, r.name = PyArg.pystr "" → r.experience = PyArg.pystr "" →
       mkEngineerRecord r = Except.ok ⟨"名前不明", "不明"⟩) ∧
    (∀ (r : RawProject) (rec : ProjectRecordCore),
       mkProjectRecord r = Except.ok rec → rec.title ≠ "") ∧
    (∀ (r : RawEngineer) (rec : EngineerRecordCore),
       mkEngineerRecord r = Except.ok rec → rec.name ≠ "") ∧
    (∀ r : RawProject, r.title = PyArg.pynone → ∃ e, mkProjectRecord r = Except.error e) ∧
    (∀ r : RawEngineer, r.name = PyArg.pynone → ∃ e, mkEngineerRecord r = Except.error e) ∧
    (∀ r : RawEngineer, r.name ≠ PyArg.pynone → r.name ≠ PyArg.absent →
       r.experience = PyArg.absent →
       ∃ n, mkEngineerRecord r = Except.ok ⟨n, ""⟩) := by
  refine ⟨?_, ?_, ?_, ?_, ?_, ?_, ?_, ?_⟩
  · intro r h
    simp [mkProjectRecord, buildRequiredStr, h, validate_title]
  · intro r h he
    rcases hx : r.experience with _ | _ | s
    · exact ⟨"", by simp [mkEngineerRecord, buildRequiredStr, buildDefaultStr, h, hx,
        validate_name]⟩
    · exact absurd hx he
    · exact ⟨validate_experience (some s),
        by simp [mkEngineerRecord, buildRequiredStr, buildDefaultStr, h, hx, validate_name]⟩
  · intro r h hx
    simp [mkEngineerRecord, buildRequiredStr, buildDefaultStr, h, hx, validate_name,
      validate_experience]
  · intro r rec hok
    rcases hr : r.title with _ | _ | s
    · simp only [mkProjectRecord, buildRequiredStr, hr] at hok
      cases hok
    · simp only [mkProjectRecord, buildRequiredStr, hr] at hok
      cases hok
    · simp only [mkProjectRecord, buildRequiredStr, hr] at hok
      cases hok
      show validate_title (some s) ≠ ""
      unfold validate_title
      dsimp only
      split_ifs with h
      · decide
      · exact h
  · intro r rec hok
    rcases hr : r.name with _ | _ | s
    · simp only [mkEngineerRecord, buildRequiredStr, hr] at hok
      cases hok
    · simp only [mkEngineerRecord, buildRequiredStr, hr] at hok
      cases hok
    · simp only [mkEngineerRecord, buildRequiredStr, hr] at hok
      have hgoal : validate_name (some s) ≠ "" := by
        unfold validate_name
        dsimp only
        split_ifs with h
        · decide
        · exact h
      rcases hx : r.experience with _ | _ | s2 <;>
        simp only [buildDefaultStr, hx] at hok
      · cases hok
        exact hgoal
      · cases hok
      · cases hok
        exact hgoal
  · intro r h
    exact ⟨"Input should be a valid string", by simp [mkProjectRecord, buildRequiredStr, h]⟩
  · intro r h
    exact ⟨"Input should be a valid string", by simp [mkEngineerRecord, buildRequiredStr, h]⟩
  · intro r hn ha hx
    rcases hr : r.name with _ | _ | s
    · exact absurd hr ha
    · exact absurd hr hn
    · exact ⟨validate_name (some s),
        by simp [mkEngineerRecord, buildRequiredStr, buildDefaultStr, hr, hx]⟩

/-- Witness for C7 at concrete raw inputs: empty strings get sentinels, a
null title is a `ValidationError`. -/
theorem required_string_sentinels_empty_witness :
    mkProjectRecord ⟨PyArg.pystr ""⟩ = Except.ok ⟨"案件名不明"⟩ ∧
    mkEngineerRecord ⟨PyArg.pystr "", PyArg.pystr ""⟩ = Except.ok ⟨"名前不明", "不明"⟩ ∧
    (∃ e, mkProjectRecord ⟨PyArg.pynone⟩ = Except.error e) :=
  ⟨required_string_sentinels_empty.1 ⟨PyArg.pystr ""⟩ rfl,
   required_string_sentinels_empty.2.2.1 ⟨PyArg.pystr "", PyArg.pystr ""⟩ rfl rfl,
   required_string_sentinels_empty.2.2.2.2.2.1 ⟨PyArg.pynone⟩ rfl⟩

/-- C10 — Any non-null gender input whose lowercased form contains 男,
male, or m normalizes to 男性; in particular "female" and "Female"
normalize to 男性 (the male-substring check runs first). -/
theorem validate_gender_male_precedence :
    (∀ s : String,
       (strContains (pyLower s) "男" = true ∨ strContains (pyLower s) "male" = true ∨
        strContains (pyLower s) "m" = true) →
       validate_gender (some s) = some "男性") ∧
    validate_gender (some "female") = some "男性" ∧
    validate_gender (some "Female") = some "男性" := by
  refine ⟨?_, by decide, by decide⟩
  intro s h
  have hany : (["男", "male", "m"].any (fun w => strContains (pyLower s) w)) = true := by
    rcases h with h | h | h <;> simp [List.any, h]
  simp [validate_gender, hany]

/-- Witness for C10 at a concrete input. -/
theorem validate_gender_male_precedence_witness :
    validate_gender (some "M") = some "男性" :=
  validate_gender_male_precedence.1 "M" (Or.inr (Or.inr (by decide)))

/-- C3 — At least two exclusion-keyword hits in subject+body, or a
suspicious sender address, send `classify_email` straight to
`unclassified`, independent of every other signal and of AI availability:
the spam gate is evaluated first. -/
theorem spam_gate_unclassified (e : EmailInput) (ai : Option (Except String String))
    (h : 2 ≤ spamKeywordCount e ∨ senderSuspicious e = true) :
    classify_email e ai = EmailType.unclassified := by
  have hs : check_spam_indicators e = true := by
    unfold check_spam_indicators
    rcases h with h | h <;> simp [h]
  unfold classify_email classifyPipeline
  simp [hs]

/-- Witness for C3: a concrete two-keyword spam email, with nonzero keyword
scores available downstream, still lands in `unclassified`. -/
theorem spam_gate_unclassified_witness :
    2 ≤ spamKeywordCount ⟨some "広告 案件募集", some "宣伝 要員ご紹介", Option.none,
        some "a@b.co.jp", Option.none, []⟩ ∧
    classify_email ⟨some "広告 案件募集", some "宣伝 要員ご紹介", Option.none,
        some "a@b.co.jp", Option.none, []⟩ Option.none = EmailType.unclassified :=
  ⟨by decide,
   spam_gate_unclassified _ Option.none (Or.inl (by decide))⟩

/-- Case analysis of the primary→fallback orchestration, shared by the two
extraction entry points. -/
theorem extractInfoRuns_spec {α : Type} (p f : Except String (Option α)) :
    (∀ r, p = Except.ok (some r) → extractInfoRuns p f = (some r, 0)) ∧
    ((∀ r, ¬ p = Except.ok (some r)) →
       (extractInfoRuns p f).2 = 1 ∧
       (∀ r, f = Except.ok (some r) → (extractInfoRuns p f).1 = some r) ∧
       ((∀ r, ¬ f = Except.ok (some r)) → (extractInfoRuns p f).1 = Option.none)) ∧
    (extractInfoRuns p f).2 ≤ 1 := by
  rcases p with m | (_ | r₀) <;> rcases f with m' | (_ | r₁) <;>
    simp_all [extractInfoRuns]

/-- C4 — Extraction orchestration: a record from the primary provider is
returned as-is with no fallback attempt; otherwise (the primary call raised
or yielded no record) the fallback client is consulted exactly once; if
both attempts fail or yield nothing the service returns no record.  Both
entry points are total `Option`-valued functions: no exception reaches the
caller, and the fallback path is never entered more than once. -/
theorem extraction_fallback_spec
    (p f : Except String (Option ProjectRecordCore))
    (q g : Except String (Option EngineerRecordCore)) :
    (∀ r, p = Except.ok (some r) →
       extract_project_info p f = some r ∧ (extractInfoRuns p f).2 = 0) ∧
    ((∀ r, ¬ p = Except.ok (some r)) →
       (extractInfoRuns p f).2 = 1 ∧
       (∀ r, f = Except.ok (some r) → extract_project_info p f = some r) ∧
       ((∀ r, ¬ f = Except.ok (some r)) → extract_project_info p f = Option.none)) ∧
    (extractInfoRuns p f).2 ≤ 1 ∧
    (∀ r, q = Except.ok (some r) →
       extract_engineer_info q g = some r ∧ (extractInfoRuns q g).2 = 0) ∧
    ((∀ r, ¬ q = Except.ok (some r)) →
       (extractInfoRuns q g).2 = 1 ∧
       (∀ r, g = Except.ok (some r) → extract_engineer_info q g = some r) ∧
       ((∀ r, ¬ g = Except.ok (some r)) → extract_engineer_info q g = Option.none)) ∧
    (extractInfoRuns q g).2 ≤ 1 := by
  obtain ⟨h1, h2, h3⟩ := extractInfoRuns_spec p f
  obtain ⟨k1, k2, k3⟩ := extractInfoRuns_spec q g
  refine ⟨?_, ?_, h3, ?_, ?_, k3⟩
  · intro r hr
    have := h1 r hr
    exact ⟨by unfold extract_project_info; rw [this], by rw [this]⟩
  · intro hno
    obtain ⟨ha, hb, hc⟩ := h2 hno
    exact ⟨ha, fun r hr => hb r hr, fun hno2 => hc hno2⟩
  · intro r hr
    have := k1 r hr
    exact ⟨by unfold extract_engineer_info; rw [this], by rw [this]⟩
  · intro hno
    obtain ⟨ha, hb, hc⟩ := k2 hno
    exact ⟨ha, fun r hr => hb r hr, fun hno2 => hc hno2⟩

/-- Witness for C4: a successful primary call is returned with no fallback
attempt; a raised primary with a successful fallback returns the fallback
record after exactly one fallback attempt. -/
theorem extraction_fallback_spec_witness :
    extract_project_info (Except.ok (some ⟨"API開発"⟩)) (Except.error "down") = some ⟨"API開発"⟩ ∧
    (extractInfoRuns (Except.ok (some (⟨"API開発"⟩ : ProjectRecordCore))) (Except.error "down")).2 = 0 ∧
    extract_engineer_info (Except.error "timeout") (Except.ok (some ⟨"山田", "5年"⟩)) = some ⟨"山田", "5年"⟩ ∧
    (extractInfoRuns (Except.error "timeout") (Except.ok (some (⟨"山田", "5年"⟩ : EngineerRecordCore)))).2 = 1 := by
  have h := extraction_fallback_spec (Except.ok (some ⟨"API開発"⟩)) (Except.error "down")
    (Except.error "timeout") (Except.ok (some ⟨"山田", "5年"⟩))
  obtain ⟨ha, hb⟩ := h.1 ⟨"API開発"⟩ rfl
  have h5 := h.2.2.2.2.1 (by rintro r hcon; cases hcon)
  exact ⟨ha, hb, h5.2.1 ⟨"山田", "5年"⟩ rfl, h5.1⟩

/-- C2 — The structural analyzer's decisive result follows the exact
precedence chain: ultra-strong engineer score ≥ 20 ⇒ engineer_related at
0.95; else ultra-strong project score ≥ 20 ⇒ project_related at 0.95; else
personal-info count ≥ 4 ⇒ engineer_related at 0.90; else project-info
count ≥ 4 ⇒ project_related at 0.90; else no decisive category.  In
particular, two ultra-strong scores ≥ 20 resolve to engineer_related. -/
theorem analyze_email_structure_precedence (e : EmailInput) :
    (20 ≤ (analyze_email_structure e).ultra_engineer_score →
       (analyze_email_structure e).definitive_type = some "engineer_related" ∧
       (analyze_email_structure e).confidence = 0.95) ∧
    (¬ 20 ≤ (analyze_email_structure e).ultra_engineer_score →
     20 ≤ (analyze_email_structure e).ultra_project_score →
       (analyze_email_structure e).definitive_type = some "project_related" ∧
       (analyze_email_structure e).confidence = 0.95) ∧
    (¬ 20 ≤ (analyze_email_structure e).ultra_engineer_score →
     ¬ 20 ≤ (analyze_email_structure e).ultra_project_score →
     4 ≤ (analyze_email_structure e).personal_info_count →
       (analyze_email_structure e).definitive_type = some "engineer_related" ∧
       (analyze_email_structure e).confidence = 0.90) ∧
    (¬ 20 ≤ (analyze_email_structure e).ultra_engineer_score →
     ¬ 20 ≤ (analyze_email_structure e).ultra_project_score →
     ¬ 4 ≤ (analyze_email_structure e).personal_info_count →
     4 ≤ (analyze_email_structure e).project_info_count →
       (analyze_email_structure e).definitive_type = some "project_related" ∧
       (analyze_email_structure e).confidence = 0.90) ∧
    (¬ 20 ≤ (analyze_email_structure e).ultra_engineer_score →
     ¬ 20 ≤ (analyze_email_structure e).ultra_project_score →
     ¬ 4 ≤ (analyze_email_structure e).personal_info_count →
     ¬ 4 ≤ (analyze_email_structure e).project_info_count →
       (analyze_email_structure e).definitive_type = Option.none) ∧
    (20 ≤ (analyze_email_structure e).ultra_engineer_score →
     20 ≤ (analyze_email_structure e).ultra_project_score →
       (analyze_email_structure e).definitive_type = some "engineer_related") := by
  simp only [analyze_email_structure]
  split_ifs with h1 h2 h3 h4 <;> simp_all


/-- Witness for C2: a 要員ご紹介 subject alone reaches the ultra-strong
engineer threshold and is decisively engineer_related. -/
theorem analyze_email_structure_precedence_witness :
    20 ≤ (analyze_email_structure eStructW).ultra_engineer_score ∧
    (analyze_email_structure eStructW).definitive_type = some "engineer_related" ∧
    (analyze_email_structure eStructW).confidence = 0.95 :=
  ⟨by decide, ((analyze_email_structure_precedence eStructW).1 (by decide)).1,
   ((analyze_email_structure_precedence eStructW).1 (by decide)).2⟩

theorem analyze_email_structure_definitive_cases (e : EmailInput) :
    (analyze_email_structure e).definitive_type = Option.none ∨
    (analyze_email_structure e).definitive_type = some "engineer_related" ∨
    (analyze_email_structure e).definitive_type = some "project_related" := by
  simp only [analyze_email_structure]
  split_ifs <;> simp

/-- The engineer-pattern fold of `attachmentStep` preserves the
strong-type/confidence case split. -/
theorem attachmentEngFold_cases (filename : String) (l : List String)
    (b : AttachmentAnalysis)
    (hb : (b.strong_type = Option.none ∧ b.confidence = 0) ∨
          b.strong_type = some "engineer_related" ∨
          b.strong_type = some "project_related") :
    ((l.foldl (fun (acc : AttachmentAnalysis) p =>
        if strContains filename p then
          { acc with engineer_indicators := acc.engineer_indicators ++ [filename],
                     confidence := 0.9, strong_type := some "engineer_related" }
        else acc) b).strong_type = Option.none ∧
     (l.foldl (fun (acc : AttachmentAnalysis) p =>
        if strContains filename p then
          { acc with engineer_indicators := acc.engineer_indicators ++ [filename],
                     confidence := 0.9, strong_type := some "engineer_related" }
        else acc) b).confidence = 0) ∨
    (l.foldl (fun (acc : AttachmentAnalysis) p =>
        if strContains filename p then
          { acc with engineer_indicators := acc.engineer_indicators ++ [filename],
                     confidence := 0.9, strong_type := some "engineer_related" }
        else acc) b).strong_type = some "engineer_related" ∨
    (l.foldl (fun (acc : AttachmentAnalysis) p =>
        if strContains filename p then
          { acc with engineer_indicators := acc.engineer_indicators ++ [filename],
                     confidence := 0.9, strong_type := some "engineer_related" }
        else acc) b).strong_type = some "project_related" := by
  induction l generalizing b with
  | nil => simpa using hb
  | cons p t ih =>
    simp only [List.foldl_cons]
    apply ih
    split_ifs <;> simp_all

/-- The project-pattern fold of `attachmentStep` preserves the
strong-type/confidence case split. -/
theorem attachmentProjFold_cases (filename : String) (l : List String)
    (b : AttachmentAnalysis)
    (hb : (b.strong_type = Option.none ∧ b.confidence = 0) ∨
          b.strong_type = some "engineer_related" ∨
          b.strong_type = some "project_related") :
    ((l.foldl (fun (acc : AttachmentAnalysis) p =>
        if strContains filename p then
          let acc := { acc with project_indicators := acc.project_indicators ++ [filename] }
          if acc.confidence < 0.8 then
            { acc with confidence := 0.8, strong_type := some "project_related" }
          else acc
        else acc) b).strong_type = Option.none ∧
     (l.foldl (fun (acc : AttachmentAnalysis) p =>
        if strContains filename p then
          let acc := { acc with project_indicators := acc.project_indicators ++ [filename] }
          if acc.confidence < 0.8 then
            { acc with confidence := 0.8, strong_type := some "project_related" }
          else acc
        else acc) b).confidence = 0) ∨
    (l.foldl (fun (acc : AttachmentAnalysis) p =>
        if strContains filename p then
          let acc := { acc with project_indicators := acc.project_indicators ++ [filename] }
          if acc.confidence < 0.8 then
            { acc with confidence := 0.8, strong_type := some "project_related" }
          else acc
        else acc) b).strong_type = some "engineer_related" ∨
    (l.foldl (fun (acc : AttachmentAnalysis) p =>
        if strContains filename p then
          let acc := { acc with project_indicators := acc.project_indicators ++ [filename] }
          if acc.confidence < 0.8 then
            { acc with confidence := 0.8, strong_type := some "project_related" }
          else acc
        else acc) b).strong_type = some "project_related" := by
  induction l generalizing b with
  | nil => simpa using hb
  | cons p t ih =>
    simp only [List.foldl_cons]
    apply ih
    split_ifs <;> simp_all

theorem analyze_attachments_strong_cases (e : EmailInput) :
    ((analyze_attachments e).strong_type = Option.none ∧
     (analyze_attachments e).confidence = 0) ∨
    (analyze_attachments e).strong_type = some "engineer_related" ∨
    (analyze_attachments e).strong_type = some "project_related" := by
  have hstep : ∀ (b : AttachmentAnalysis) (a : AttachmentInput),
      ((b.strong_type = Option.none ∧ b.confidence = 0) ∨
       b.strong_type = some "engineer_related" ∨
       b.strong_type = some "project_related") →
      (((attachmentStep b a).strong_type = Option.none ∧
        (attachmentStep b a).confidence = 0) ∨
       (attachmentStep b a).strong_type = some "engineer_related" ∨
       (attachmentStep b a).strong_type = some "project_related") := by
    intro b a hb
    unfold attachmentStep
    dsimp only
    apply attachmentProjFold_cases
    apply attachmentEngFold_cases
    simpa using hb
  unfold analyze_attachments
  dsimp only
  split_ifs with h0 h1
  · exact Or.inl ⟨rfl, by norm_num⟩
  · exact foldl_inv hstep _ _ (Or.inl ⟨rfl, by norm_num⟩)
  · exact Or.inr (Or.inl rfl)

/-- C1 — `classify_email` is total: on every input (missing fields
included) and every AI-call outcome, the `try` body completes with
`Except.ok` (no exception escapes; the catch-all that maps an internal
exception to `unclassified` is never even needed), and the result is
exactly one value of the closed four-value enumeration. -/
theorem classify_email_total (e : EmailInput) (ai : Option (Except String String)) :
    ∃ t : EmailType, classifyPipeline e ai = Except.ok t ∧ classify_email e ai = t ∧
      (t = EmailType.project_related ∨ t = EmailType.engineer_related ∨
       t = EmailType.other ∨ t = EmailType.unclassified) := by
  have hmem : ∀ t : EmailType,
      t = EmailType.project_related ∨ t = EmailType.engineer_related ∨
      t = EmailType.other ∨ t = EmailType.unclassified := by
    intro t; cases t <;> simp
  suffices h : ∃ t, classifyPipeline e ai = Except.ok t by
    obtain ⟨t, ht⟩ := h
    refine ⟨t, ht, ?_, hmem t⟩
    unfold classify_email
    rw [ht]
  unfold classifyPipeline
  by_cases hs : check_spam_indicators e = true
  · rw [if_pos hs]
    exact ⟨_, rfl⟩
  · rw [if_neg hs]
    dsimp only
    rcases analyze_email_structure_definitive_cases e with h | h | h <;> rw [h] <;> dsimp only
    · by_cases hc : (analyze_attachments e).confidence > 0.8
      · rw [if_pos hc]
        rcases analyze_attachments_strong_cases e with ⟨hn, h0⟩ | ht | ht
        · exfalso
          rw [h0] at hc
          norm_num at hc
        · rw [ht]
          exact ⟨_, rfl⟩
        · rw [ht]
          exact ⟨_, rfl⟩
      · rw [if_neg hc]
        split_ifs <;>
          first
          | exact ⟨_, rfl⟩
          | rcases ai with _ | resp <;> exact ⟨_, rfl⟩
    · exact ⟨_, rfl⟩
    · exact ⟨_, rfl⟩

/-- One step of the extension fold of `attachmentStep`: the flag invariant
(`st.2 → st.1 ≠ []`) and nonemptiness are preserved. -/
theorem attachmentExtStep_pres (filename : String) (a : AttachmentInput)
    (st : List AttachmentInput × Bool) (ext : String)
    (hflag : st.2 = true → st.1 ≠ []) :
    ((if strEndsWith filename ext = true then
        let st1 :=
          if (attachmentEngineerPatterns.any fun p => strContains filename p) = true then
            (st.1 ++ [a], true)
          else st
        if (!st1.2 && [".docx", ".doc", ".pdf"].contains ext) = true then (st1.1 ++ [a], true)
        else st1
      else st).2 = true →
     (if strEndsWith filename ext = true then
        let st1 :=
          if (attachmentEngineerPatterns.any fun p => strContains filename p) = true then
            (st.1 ++ [a], true)
          else st
        if (!st1.2 && [".docx", ".doc", ".pdf"].contains ext) = true then (st1.1 ++ [a], true)
        else st1
      else st).1 ≠ []) ∧
    (st.1 ≠ [] →
     (if strEndsWith filename ext = true then
        let st1 :=
          if (attachmentEngineerPatterns.any fun p => strContains filename p) = true then
            (st.1 ++ [a], true)
          else st
        if (!st1.2 && [".docx", ".doc", ".pdf"].contains ext) = true then (st1.1 ++ [a], true)
        else st1
      else st).1 ≠ []) := by
  by_cases hE : strEndsWith filename ext = true <;>
    by_cases hkw : (attachmentEngineerPatterns.any fun p => strContains filename p) = true <;>
    simp [hE, hkw] <;> (try split_ifs) <;> simp_all

/-- One step of the extension fold on a bare-resume extension that the
filename carries yields a nonempty resume list. -/
theorem attachmentExtStep_trigger (filename : String) (a : AttachmentInput)
    (st : List AttachmentInput × Bool) (ext : String)
    (hflag : st.2 = true → st.1 ≠ [])
    (hE : strEndsWith filename ext = true)
    (hcont : [".docx", ".doc", ".pdf"].contains ext = true) :
    (if strEndsWith filename ext = true then
       let st1 :=
         if (attachmentEngineerPatterns.any fun p => strContains filename p) = true then
           (st.1 ++ [a], true)
         else st
       if (!st1.2 && [".docx", ".doc", ".pdf"].contains ext) = true then (st1.1 ++ [a], true)
       else st1
     else st).1 ≠ [] := by
  by_cases hkw : (attachmentEngineerPatterns.any fun p => strContains filename p) = true <;>
    simp [hE, hkw, hcont] <;> (try split_ifs) <;> simp_all

/-- The full extension fold yields a nonempty resume list when it starts
nonempty or the filename carries a bare-resume extension from the list. -/
theorem attachmentExtFold_nonempty (filename : String) (a : AttachmentInput) :
    ∀ (l : List String) (st : List AttachmentInput × Bool),
    (st.2 = true → st.1 ≠ []) →
    (st.1 ≠ [] ∨ ∃ ext ∈ l, strEndsWith filename ext = true ∧
        [".docx", ".doc", ".pdf"].contains ext = true) →
    (l.foldl (fun (st : List AttachmentInput × Bool) ext =>
        if strEndsWith filename ext = true then
          let st1 :=
            if (attachmentEngineerPatterns.any fun p => strContains filename p) = true then
              (st.1 ++ [a], true)
            else st
          if (!st1.2 && [".docx", ".doc", ".pdf"].contains ext) = true then (st1.1 ++ [a], true)
          else st1
        else st) st).1 ≠ [] := by
  intro l
  induction l with
  | nil =>
    intro st _ h
    rcases h with h | ⟨ext, hmem, _⟩
    · exact h
    · cases hmem
  | cons ext t ih =>
    intro st hflag h
    simp only [List.foldl_cons]
    refine ih _ (attachmentExtStep_pres filename a st ext hflag).1 ?_
    rcases h with h | ⟨ext', hmem, hends, hcont⟩
    · exact Or.inl ((attachmentExtStep_pres filename a st ext hflag).2 h)
    · rcases List.mem_cons.mp hmem with rfl | hmem'
      · exact Or.inl (attachmentExtStep_trigger filename a st ext' hflag hends hcont)
      · exact Or.inr ⟨ext', hmem', hends, hcont⟩

/-- The engineer-pattern fold of `attachmentStep` leaves `resume_files`
unchanged. -/
theorem attachmentEngFold_resume (filename : String) (l : List String)
    (b : AttachmentAnalysis) :
    (l.foldl (fun (acc : AttachmentAnalysis) p =>
        if strContains filename p then
          { acc with engineer_indicators := acc.engineer_indicators ++ [filename],
                     confidence := 0.9, strong_type := some "engineer_related" }
        else acc) b).resume_files = b.resume_files := by
  induction l generalizing b with
  | nil => rfl
  | cons p t ih =>
    simp only [List.foldl_cons]
    rw [ih]
    split_ifs <;> rfl

/-- The project-pattern fold of `attachmentStep` leaves `resume_files`
unchanged. -/
theorem attachmentProjFold_resume (filename : String) (l : List String)
    (b : AttachmentAnalysis) :
    (l.foldl (fun (acc : AttachmentAnalysis) p =>
        if strContains filename p then
          let acc := { acc with project_indicators := acc.project_indicators ++ [filename] }
          if acc.confidence < 0.8 then
            { acc with confidence := 0.8, strong_type := some "project_related" }
          else acc
        else acc) b).resume_files = b.resume_files := by
  induction l generalizing b with
  | nil => rfl
  | cons p t ih =>
    simp only [List.foldl_cons]
    rw [ih]
    split_ifs <;> rfl

/-- One attachment step keeps a nonempty resume list nonempty, and an
attachment whose lowered filename ends in .docx/.doc/.pdf makes it
nonempty. -/
theorem attachmentStep_resume (b : AttachmentAnalysis) (a : AttachmentInput)
    (h : b.resume_files ≠ [] ∨
         strEndsWith (pyLower (a.filename.getD "")) ".docx" = true ∨
         strEndsWith (pyLower (a.filename.getD "")) ".doc" = true ∨
         strEndsWith (pyLower (a.filename.getD "")) ".pdf" = true) :
    (attachmentStep b a).resume_files ≠ [] := by
  unfold attachmentStep
  dsimp only
  rw [attachmentProjFold_resume, attachmentEngFold_resume]
  refine attachmentExtFold_nonempty (pyLower (a.filename.getD "")) a resumeExtensions
    (b.resume_files, false) (by intro hcon; cases hcon) ?_
  rcases h with h | h | h | h
  · exact Or.inl h
  · exact Or.inr ⟨".docx", by decide, h, by decide⟩
  · exact Or.inr ⟨".doc", by decide, h, by decide⟩
  · exact Or.inr ⟨".pdf", by decide, h, by decide⟩

/-- If any attachment's lowered filename ends in .docx/.doc/.pdf, the
attachment analyzer reports a resume file and signals engineer_related at
confidence 0.95. -/
theorem analyze_attachments_resume_override (e : EmailInput)
    (h : ∃ a ∈ e.attachments,
        strEndsWith (pyLower (a.filename.getD "")) ".docx" = true ∨
        strEndsWith (pyLower (a.filename.getD "")) ".doc" = true ∨
        strEndsWith (pyLower (a.filename.getD "")) ".pdf" = true) :
    (analyze_attachments e).strong_type = some "engineer_related" ∧
    (analyze_attachments e).confidence = 0.95 := by
  obtain ⟨a, hmem, hext⟩ := h
  obtain ⟨s, t, hsplit⟩ := List.append_of_mem hmem
  have hne : (e.attachments.foldl attachmentStep
      { total_count := e.attachments.length, engineer_indicators := [],
        project_indicators := [], resume_files := [], confidence := 0.0,
        strong_type := Option.none }).resume_files ≠ [] := by
    rw [hsplit, List.foldl_append, List.foldl_cons]
    refine foldl_inv (fun b a2 hb => attachmentStep_resume b a2 (Or.inl hb)) t _ ?_
    exact attachmentStep_resume _ a (Or.inr hext)
  have hne2 : e.attachments ≠ [] := by
    intro hnil
    rw [hnil] at hmem
    cases hmem
  have hnotnil : e.attachments.isEmpty = false := by
    simpa [List.isEmpty_iff] using hne2
  unfold analyze_attachments
  rw [if_neg (by simp [hnotnil])]
  dsimp only
  rw [if_neg (by simpa using hne)]
  exact ⟨rfl, rfl⟩

/-- C8 (amended) — For an email past the spam gate with no decisive
structural result, an attachment whose lowered filename ends in `.docx`,
`.doc` or `.pdf` — even with no resume keyword in the name — makes the
attachment analyzer signal engineer_related at confidence ≥ 0.9, and the
pipeline returns engineer_related regardless of keyword scores and of the
AI.  (For `.xlsx`/`.xls` the code requires a resume keyword as well; see
the counterexample.) -/
theorem resume_extension_overrides (e : EmailInput) (ai : Option (Except String String))
    (hspam : check_spam_indicators e = false)
    (hstruct : (analyze_email_structure e).definitive_type = Option.none)
    (hatt : ∃ a ∈ e.attachments,
        strEndsWith (pyLower (a.filename.getD "")) ".docx" = true ∨
        strEndsWith (pyLower (a.filename.getD "")) ".doc" = true ∨
        strEndsWith (pyLower (a.filename.getD "")) ".pdf" = true) :
    (analyze_attachments e).strong_type = some "engineer_related" ∧
    0.9 ≤ (analyze_attachments e).confidence ∧
    classify_email e ai = EmailType.engineer_related := by
  obtain ⟨hstrong, hconf⟩ := analyze_attachments_resume_override e hatt
  refine ⟨hstrong, by rw [hconf]; norm_num, ?_⟩
  unfold classify_email classifyPipeline
  rw [if_neg (by simp [hspam])]
  dsimp only
  rw [hstruct]
  dsimp only
  rw [if_pos (by rw [hconf]; norm_num)]
  rw [hstrong]
  rfl

/-- Witness for C8: a bare `.pdf` attachment with no resume keyword forces
engineer_related. -/
theorem resume_extension_overrides_witness :
    check_spam_indicators ePdfW = false ∧
    (analyze_email_structure ePdfW).definitive_type = Option.none ∧
    classify_email ePdfW Option.none = EmailType.engineer_related := by
  refine ⟨by decide, by decide, ?_⟩
  exact (resume_extension_overrides ePdfW Option.none (by decide) (by decide)
    ⟨⟨some "経歴書本体.pdf"⟩, by decide, Or.inr (Or.inr (by decide))⟩).2.2

/-- Counterexample to C8 as stated: `.xlsx` is in the claim's
resume-typical extension list, yet a bare `data.xlsx` attachment (no resume
keyword) is not treated as a resume — the email falls through to keyword
scoring and ends `unclassified`, not `engineer_related`. -/
theorem resume_extension_claim_counterexample :
    strEndsWith (pyLower ((⟨some "data.xlsx"⟩ : AttachmentInput).filename.getD "")) ".xlsx" = true ∧
    check_spam_indicators eXlsxCE = false ∧
    (analyze_email_structure eXlsxCE).definitive_type = Option.none ∧
    (⟨some "data.xlsx"⟩ : AttachmentInput) ∈ eXlsxCE.attachments ∧
    classify_email eXlsxCE Option.none = EmailType.unclassified ∧
    ¬ classify_email eXlsxCE Option.none = EmailType.engineer_related := by
  refine ⟨by decide, by decide, by decide, by decide, ?_, ?_⟩ <;> with_unfolding_all decide

/-- The structural analyzer reads only subject and body text. -/
theorem analyze_email_structure_congr (e1 e2 : EmailInput)
    (h1 : e1.subject = e2.subject) (h2 : e1.body_text = e2.body_text) :
    analyze_email_structure e1 = analyze_email_structure e2 := by
  unfold analyze_email_structure
  rw [h1, h2]

/-- The attachment analyzer reads only the attachment list. -/
theorem analyze_attachments_congr (e1 e2 : EmailInput)
    (h : e1.attachments = e2.attachments) :
    analyze_attachments e1 = analyze_attachments e2 := by
  unfold analyze_attachments
  rw [h]

/-- The content extractor reads only the text and HTML bodies. -/
theorem smart_content_extraction_congr (e1 e2 : EmailInput)
    (h2 : e1.body_text = e2.body_text) (h3 : e1.body_html = e2.body_html) :
    smart_content_extraction e1 = smart_content_extraction e2 := by
  unfold smart_content_extraction
  rw [h2, h3]

/-- Characterization of `classify_email` at the keyword-scoring stage:
past the spam gate, with no decisive structural result and no strong
attachment signal, the category is decided by the threshold chain over the
combined scores, with the sender-recruiting bonus `b` added to the engineer
side. -/
theorem classify_keyword_stage (e : EmailInput) (ai : Option (Except String String)) (b : ℚ)
    (hspam : check_spam_indicators e = false)
    (hstruct : (analyze_email_structure e).definitive_type = Option.none)
    (hatt : ¬ (analyze_attachments e).confidence > 0.8)
    (hb : b = if (analyze_sender_info e).domain_type = "recruiting" then 5.0 else 0) :
    classify_email e ai =
      (if ((calculate_keyword_score (smart_content_extraction e) "engineer_related").1 +
            ((analyze_email_structure e).personal_info_count : ℚ) * 3 +
            ((analyze_email_structure e).ultra_engineer_score : ℚ) * 0.5 + b) >
           ((calculate_keyword_score (smart_content_extraction e) "project_related").1 +
            ((analyze_email_structure e).project_info_count : ℚ) * 3 +
            ((analyze_email_structure e).ultra_project_score : ℚ) * 0.5) + 5.0 ∧
          ((calculate_keyword_score (smart_content_extraction e) "engineer_related").1 +
            ((analyze_email_structure e).personal_info_count : ℚ) * 3 +
            ((analyze_email_structure e).ultra_engineer_score : ℚ) * 0.5 + b) > 10.0 then
         EmailType.engineer_related
       else if ((calculate_keyword_score (smart_content_extraction e) "project_related").1 +
            ((analyze_email_structure e).project_info_count : ℚ) * 3 +
            ((analyze_email_structure e).ultra_project_score : ℚ) * 0.5) >
           ((calculate_keyword_score (smart_content_extraction e) "engineer_related").1 +
            ((analyze_email_structure e).personal_info_count : ℚ) * 3 +
            ((analyze_email_structure e).ultra_engineer_score : ℚ) * 0.5 + b) + 5.0 ∧
          ((calculate_keyword_score (smart_content_extraction e) "project_related").1 +
            ((analyze_email_structure e).project_info_count : ℚ) * 3 +
            ((analyze_email_structure e).ultra_project_score : ℚ) * 0.5) > 10.0 then
         EmailType.project_related
       else
         match ai with
         | some resp => call_ai_classifier resp
         | Option.none =>
           fallback_classification (smart_content_extraction e)
             ((calculate_keyword_score (smart_content_extraction e) "project_related").1 +
              ((analyze_email_structure e).project_info_count : ℚ) * 3 +
              ((analyze_email_structure e).ultra_project_score : ℚ) * 0.5)
             ((calculate_keyword_score (smart_content_extraction e) "engineer_related").1 +
              ((analyze_email_structure e).personal_info_count : ℚ) * 3 +
              ((analyze_email_structure e).ultra_engineer_score : ℚ) * 0.5 + b)
             (calculate_keyword_score (smart_content_extraction e) "project_related").2
             (calculate_keyword_score (smart_content_extraction e) "engineer_related").2) := by
  unfold classify_email classifyPipeline
  rw [if_neg (by simp [hspam])]
  dsimp only
  rw [hstruct]
  dsimp only
  rw [if_neg hatt]
  by_cases hr : (analyze_sender_info e).domain_type = "recruiting"
  · rw [if_pos hr]
    rw [hb, if_pos hr]
    split_ifs <;> first | rfl | (rcases ai with _ | resp <;> rfl)
  · rw [if_neg hr]
    rw [hb, if_neg hr]
    simp only [add_zero]
    split_ifs <;> first | rfl | (rcases ai with _ | resp <;> rfl)

/-- Keyword scores are sums of nonnegative tier weights. -/
theorem calculate_keyword_score_nonneg (t ty : String) :
    0 ≤ (calculate_keyword_score t ty).1 := by
  unfold calculate_keyword_score
  rcases h : keywordTable.find? (fun p => p.1 == ty) with _ | p
  · rw [h]
    norm_num
  · rw [h]
    dsimp only
    have h25 : (25.0 : ℚ) = 25 := by norm_num
    have h5 : (5.0 : ℚ) = 5 := by norm_num
    have h1 : (1.0 : ℚ) = 1 := by norm_num
    rw [h25, h5, h1]
    positivity

/-- C9 (amended) — The sender-reputation recruiting bonus only ever moves
the decision toward engineer_related: for two emails identical except that
one sender matches a recruiting pattern and the other does not, both
passing the spam gate, with the AI-call outcome held fixed, if the
non-recruiting run classifies engineer_related then so does the recruiting
run, and if the recruiting run classifies project_related then so does the
non-recruiting run.  It can, however, change the category (see the
counterexample): the +5.0 bonus feeds the decision thresholds, not only
the reported confidence. -/
theorem recruiting_bonus_monotone (e1 e2 : EmailInput) (ai : Option (Except String String))
    (hsub : e1.subject = e2.subject) (hbody : e1.body_text = e2.body_text)
    (hhtml : e1.body_html = e2.body_html) (hatts : e1.attachments = e2.attachments)
    (hspam1 : check_spam_indicators e1 = false) (hspam2 : check_spam_indicators e2 = false)
    (hrec1 : (analyze_sender_info e1).domain_type = "recruiting")
    (hrec2 : ¬ (analyze_sender_info e2).domain_type = "recruiting") :
    (classify_email e2 ai = EmailType.engineer_related →
       classify_email e1 ai = EmailType.engineer_related) ∧
    (classify_email e1 ai = EmailType.project_related →
       classify_email e2 ai = EmailType.project_related) := by
  have hS := analyze_email_structure_congr e1 e2 hsub hbody
  have hA := analyze_attachments_congr e1 e2 hatts
  have hC := smart_content_extraction_congr e1 e2 hbody hhtml
  have hsame : ∀ ty, (analyze_email_structure e2).definitive_type = some ty →
      classify_email e1 ai = classify_email e2 ai := by
    intro ty hd
    unfold classify_email classifyPipeline
    rw [if_neg (by simp [hspam1]), if_neg (by simp [hspam2])]
    dsimp only
    rw [hS, hd]
  rcases analyze_email_structure_definitive_cases e2 with hd | hd | hd
  rotate_left
  · have heq := hsame _ hd
    exact ⟨fun h => heq.trans h, fun h => heq.symm.trans h⟩
  · have heq := hsame _ hd
    exact ⟨fun h => heq.trans h, fun h => heq.symm.trans h⟩
  by_cases hconf : (analyze_attachments e2).confidence > 0.8
  · have heq : classify_email e1 ai = classify_email e2 ai := by
      unfold classify_email classifyPipeline
      rw [if_neg (by simp [hspam1]), if_neg (by simp [hspam2])]
      dsimp only
      rw [hS, hd]
      dsimp only
      rw [hA, if_pos hconf, if_pos hconf]
    exact ⟨fun h => heq.trans h, fun h => heq.symm.trans h⟩
  · have h1 := classify_keyword_stage e1 ai 5.0 hspam1 (by rw [hS]; exact hd)
      (by rw [hA]; exact hconf) (by simp [hrec1])
    have h2 := classify_keyword_stage e2 ai 0 hspam2 hd hconf (by simp [hrec2])
    rw [hS, hC] at h1
    rw [h1, h2]
    have hq5 : (5.0 : ℚ) = 5 := by norm_num
    have hq10 : (10.0 : ℚ) = 10 := by norm_num
    simp only [add_zero, hq5, hq10]
    set E := (calculate_keyword_score (smart_content_extraction e2) "engineer_related").1 +
        ((analyze_email_structure e2).personal_info_count : ℚ) * 3 +
        ((analyze_email_structure e2).ultra_engineer_score : ℚ) * 0.5 with hE
    set P := (calculate_keyword_score (smart_content_extraction e2) "project_related").1 +
        ((analyze_email_structure e2).project_info_count : ℚ) * 3 +
        ((analyze_email_structure e2).ultra_project_score : ℚ) * 0.5 with hP
    constructor
    · intro h
      by_cases hc1 : E + 5 > P + 5 ∧ E + (5 : ℚ) > 10
      · rw [if_pos hc1]
      · rw [if_neg hc1]
        by_cases hd1 : E > P + 5 ∧ E > (10 : ℚ)
        · exact absurd ⟨by linarith [hd1.1], by linarith [hd1.2]⟩ hc1
        · rw [if_neg hd1] at h
          by_cases hd2 : P > E + 5 ∧ P > (10 : ℚ)
          · rw [if_pos hd2] at h
            cases h
          · rw [if_neg hd2] at h
            have hc2 : ¬ (P > E + 5 + 5 ∧ P > (10 : ℚ)) := by
              intro hcon
              exact hd2 ⟨by linarith [hcon.1], hcon.2⟩
            rw [if_neg hc2]
            rcases ai with _ | resp
            · unfold fallback_classification at h ⊢
              have hq3 : (3.0 : ℚ) = 3 := by norm_num
              simp only [hq3] at h ⊢
              by_cases g1 : E > P ∧ E > (3 : ℚ)
              · rw [if_pos (⟨by linarith [g1.1], by linarith [g1.2]⟩ :
                  E + 5 > P ∧ E + (5 : ℚ) > 3)]
              · rw [if_neg g1] at h
                split_ifs at h <;> cases h
            · exact h
    · intro h
      by_cases hc1 : E + 5 > P + 5 ∧ E + (5 : ℚ) > 10
      · rw [if_pos hc1] at h
        cases h
      · rw [if_neg hc1] at h
        have hd1 : ¬ (E > P + 5 ∧ E > (10 : ℚ)) := by
          intro hcon
          exact hc1 ⟨by linarith [hcon.1], by linarith [hcon.2]⟩
        rw [if_neg hd1]
        by_cases hc2 : P > E + 5 + 5 ∧ P > (10 : ℚ)
        · rw [if_pos (⟨by linarith [hc2.1], hc2.2⟩ : P > E + 5 ∧ P > (10 : ℚ))]
        · rw [if_neg hc2] at h
          by_cases hd2 : P > E + 5 ∧ P > (10 : ℚ)
          · rw [if_pos hd2]
          · rw [if_neg hd2]
            rcases ai with _ | resp
            · unfold fallback_classification at h ⊢
              have hq3 : (3.0 : ℚ) = 3 := by norm_num
              simp only [hq3] at h ⊢
              by_cases g1 : E + 5 > P ∧ E + (5 : ℚ) > 3
              · rw [if_pos g1] at h
                cases h
              · rw [if_neg g1] at h
                by_cases g2 : P > E + 5 ∧ P > (3 : ℚ)
                · rw [if_pos g2] at h
                  rw [if_neg (by intro hcon; exact absurd hcon.1 (by push_neg; linarith [g2.1]) :
                    ¬ (E > P ∧ E > (3 : ℚ)))]
                  rw [if_pos (⟨by linarith [g2.1], g2.2⟩ : P > E ∧ P > (3 : ℚ))]
                · rw [if_neg g2] at h
                  split_ifs at h <;> cases h
            · exact h

/-- Witness for C9 (amended) at the concrete email pair. -/
theorem recruiting_bonus_monotone_witness :
    (classify_email eRecCE2 Option.none = EmailType.engineer_related →
       classify_email eRecCE1 Option.none = EmailType.engineer_related) ∧
    (classify_email eRecCE1 Option.none = EmailType.project_related →
       classify_email eRecCE2 Option.none = EmailType.project_related) :=
  recruiting_bonus_monotone eRecCE1 eRecCE2 Option.none rfl rfl rfl rfl
    (by decide) (by decide) (by with_unfolding_all decide) (by with_unfolding_all decide)

/-- Counterexample to C9 as stated: two emails identical except for the
sender (recruiting vs. not), both past the spam gate and reaching the
keyword-scoring stage with scores 4 (engineer) vs 8 (project); the
recruiting +5.0 flips the category from project_related to
engineer_related — with no AI client configured at all. -/
theorem recruiting_noninterference_counterexample :
    eRecCE1.subject = eRecCE2.subject ∧ eRecCE1.body_text = eRecCE2.body_text ∧
    eRecCE1.body_html = eRecCE2.body_html ∧ eRecCE1.attachments = eRecCE2.attachments ∧
    (analyze_sender_info eRecCE1).domain_type = "recruiting" ∧
    ¬ (analyze_sender_info eRecCE2).domain_type = "recruiting" ∧
    check_spam_indicators eRecCE1 = false ∧ check_spam_indicators eRecCE2 = false ∧
    classify_email eRecCE1 Option.none = EmailType.engineer_related ∧
    classify_email eRecCE2 Option.none = EmailType.project_related := by
  refine ⟨rfl, rfl, rfl, rfl, ?_, ?_, ?_, ?_, ?_, ?_⟩ <;> with_unfolding_all decide

/-- Counterexample to C5 as stated: the prose prefix "x " makes whole-text
parsing fail, and on the depth-3 object the block regex first matches the
inner two-level object, which parses — the extractor returns an object
different from the embedded one. -/
theorem json_extractor_roundtrip_counterexample :
    wfV jDeep = true ∧
    Json.ser jDeep = "\x7b\"a\": \x7b\"b\": \x7b\"c\": 1\x7d\x7d\x7d" ∧
    extract_json_from_text ("x " ++ Json.ser jDeep) = some jInner ∧
    jInner ≠ jDeep := by
  refine ⟨by decide, by with_unfolding_all decide, by with_unfolding_all decide, by decide⟩

/-! ## Helper lemmas and round-trip theorems for the JSON extractor (C5) -/
theorem string_mk_toList (s : String) : String.mk s.toList = s := by
  cases s
  rfl

theorem skipWs_cons_not (c : Char) (t : List Char) (h : jsonWs c = false) :
    skipWs (c :: t) = c :: t := by
  unfold skipWs
  rw [List.dropWhile_cons, h]
  simp

theorem parseStrAux_rt (sc : List Char) (rest : List Char)
    (h : ∀ c ∈ sc, c ≠ '"') :
    parseStrAux (sc ++ '"' :: rest) = some (sc, rest) := by
  induction sc with
  | nil => simp [parseStrAux]
  | cons c t ih =>
    have hc : c ≠ '"' := h c (by simp)
    simp only [List.cons_append, parseStrAux, if_neg hc, List.append_eq]
    rw [ih (fun d hd => h d (by simp [hd]))]
    rfl

theorem natDigitsChars_digit (n : Nat) : ∀ c ∈ natDigitsChars n, isDigitChar c = true := by
  intro c hc
  unfold natDigitsChars at hc
  rw [List.mem_reverse, List.mem_map] at hc
  obtain ⟨d, hd, rfl⟩ := hc
  have hlt : d < 10 := Nat.digits_lt_base (by norm_num) hd
  interval_cases d <;> decide

theorem serNat_digit (n : Nat) : ∀ c ∈ (serNat n).toList, isDigitChar c = true := by
  unfold serNat
  split_ifs with h
  · intro c hc
    simp at hc
    subst hc
    decide
  · exact natDigitsChars_digit n

theorem parseNatChars_natDigitsChars (n : Nat) : parseNatChars (natDigitsChars n) = n := by
  unfold parseNatChars natDigitsChars
  rw [List.map_reverse, List.reverse_reverse, List.map_map]
  have hmap : (Nat.digits 10 n).map ((fun c => c.toNat - 48) ∘ (fun d => Char.ofNat (48 + d))) =
      (Nat.digits 10 n).map id := by
    apply List.map_congr_left
    intro d hd
    have hlt : d < 10 := Nat.digits_lt_base (by norm_num) hd
    interval_cases d <;> rfl
  rw [hmap, List.map_id]
  exact Nat.ofDigits_digits 10 n

theorem parseNatChars_serNat (n : Nat) : parseNatChars (serNat n).toList = n := by
  unfold serNat
  split_ifs with h
  · subst h
    decide
  · exact parseNatChars_natDigitsChars n

theorem toList_append (a b : String) : (a ++ b).toList = a.toList ++ b.toList := by
  cases a
  cases b
  rfl

theorem digit_facts (c : Char) (h : isDigitChar c = true) :
    jsonWs c = false ∧ c ≠ '"' ∧ c ≠ lbChar ∧ c ≠ '[' ∧ c ≠ ']' ∧ c ≠ rbChar ∧ c ≠ ',' := by
  unfold isDigitChar at h
  rw [decide_eq_true_eq] at h
  obtain ⟨h1, h2⟩ := h
  rw [Char.le_def] at h1 h2
  refine ⟨?_, ?_, ?_, ?_, ?_, ?_, ?_⟩
  · unfold jsonWs
    have a1 : c ≠ ' ' := by rintro rfl; exact absurd h1 (by decide)
    have a2 : c ≠ '\t' := by rintro rfl; exact absurd h1 (by decide)
    have a3 : c ≠ '\n' := by rintro rfl; exact absurd h1 (by decide)
    have a4 : c ≠ '\r' := by rintro rfl; exact absurd h1 (by decide)
    simp [a1, a2, a3, a4]
  · rintro rfl; exact absurd h1 (by decide)
  · rintro rfl; exact absurd h2 (by decide)
  · rintro rfl; exact absurd h2 (by decide)
  · rintro rfl; exact absurd h2 (by decide)
  · rintro rfl; exact absurd h2 (by decide)
  · rintro rfl; exact absurd h1 (by decide)

theorem takeWhile_all_append {p : Char → Bool} (l₁ l₂ : List Char)
    (h : ∀ c ∈ l₁, p c = true) :
    (l₁ ++ l₂).takeWhile p = l₁ ++ l₂.takeWhile p := by
  induction l₁ with
  | nil => rfl
  | cons c t ih =>
    simp only [List.cons_append, List.takeWhile_cons, h c (by simp)]
    simp [ih (fun d hd => h d (by simp [hd]))]

theorem dropWhile_all_append {p : Char → Bool} (l₁ l₂ : List Char)
    (h : ∀ c ∈ l₁, p c = true) :
    (l₁ ++ l₂).dropWhile p = l₂.dropWhile p := by
  induction l₁ with
  | nil => rfl
  | cons c t ih =>
    simp only [List.cons_append, List.dropWhile_cons, h c (by simp)]
    exact ih (fun d hd => h d (by simp [hd]))

theorem takeWhile_noDigitHead (l : List Char) (h : noDigitHead l) :
    l.takeWhile isDigitChar = [] := by
  cases l with
  | nil => rfl
  | cons c t =>
    unfold noDigitHead at h
    simp [List.takeWhile_cons, h]

theorem dropWhile_noDigitHead (l : List Char) (h : noDigitHead l) :
    l.dropWhile isDigitChar = l := by
  cases l with
  | nil => rfl
  | cons c t =>
    unfold noDigitHead at h
    simp [List.dropWhile_cons, h]

theorem skipWs_space (X : List Char) : skipWs (' ' :: X) = skipWs X := by
  unfold skipWs
  rw [List.dropWhile_cons, if_pos (by decide)]

theorem parseVal_ws_cons (fuel : Nat) (X : List Char) :
    parseVal fuel (' ' :: X) = parseVal fuel X := by
  cases fuel with
  | zero => rfl
  | succ m =>
    unfold parseVal
    rw [skipWs_space]

theorem parseItems_ws_cons (fuel : Nat) (X : List Char) :
    parseItems fuel (' ' :: X) = parseItems fuel X := by
  cases fuel with
  | zero => rfl
  | succ m =>
    unfold parseItems
    rw [parseVal_ws_cons]

theorem parseVal_null (fuel : Nat) (rest : List Char) :
    parseVal (fuel + 1) ('n' :: 'u' :: 'l' :: 'l' :: rest) = some (Json.null, rest) := by
  unfold parseVal
  rw [skipWs_cons_not _ _ (by decide)]
  dsimp only
  rw [if_neg (by decide), if_neg (by decide), if_neg (by decide), if_neg (by decide),
    if_neg (by simp [List.isPrefixOf]), if_neg (by simp [List.isPrefixOf]),
    if_pos (by simp [List.isPrefixOf])]
  rfl

theorem parseVal_true (fuel : Nat) (rest : List Char) :
    parseVal (fuel + 1) ('t' :: 'r' :: 'u' :: 'e' :: rest) = some (Json.bool true, rest) := by
  unfold parseVal
  rw [skipWs_cons_not _ _ (by decide)]
  dsimp only
  rw [if_neg (by decide), if_neg (by decide), if_neg (by decide), if_neg (by decide),
    if_pos (by simp [List.isPrefixOf])]
  rfl

theorem parseVal_false (fuel : Nat) (rest : List Char) :
    parseVal (fuel + 1) ('f' :: 'a' :: 'l' :: 's' :: 'e' :: rest) = some (Json.bool false, rest) := by
  unfold parseVal
  rw [skipWs_cons_not _ _ (by decide)]
  dsimp only
  rw [if_neg (by decide), if_neg (by decide), if_neg (by decide), if_neg (by decide),
    if_neg (by simp [List.isPrefixOf]), if_pos (by simp [List.isPrefixOf])]
  rfl

theorem serNat_toList_ne_nil (n : Nat) : (serNat n).toList ≠ [] := by
  unfold serNat
  split_ifs with h
  · decide
  · show natDigitsChars n ≠ []
    unfold natDigitsChars
    simp [Nat.digits_ne_nil_iff_ne_zero, h]

theorem parseVal_num (fuel : Nat) (n : Nat) (rest : List Char) (hrest : noDigitHead rest) :
    parseVal (fuel + 1) ((serNat n).toList ++ rest) = some (Json.num n, rest) := by
  obtain ⟨c, cs, hser⟩ : ∃ c cs, (serNat n).toList = c :: cs := by
    rcases hl : (serNat n).toList with _ | ⟨c, cs⟩
    · exact absurd hl (serNat_toList_ne_nil n)
    · exact ⟨c, cs, rfl⟩
  have hcd : isDigitChar c = true := serNat_digit n c (by rw [hser]; simp)
  obtain ⟨hws, hq, hlb, hbr, _, _, _⟩ := digit_facts c hcd
  rw [hser, List.cons_append]
  unfold parseVal
  rw [skipWs_cons_not _ _ hws]
  dsimp only
  rw [if_neg hq, if_neg hlb, if_neg hbr, if_pos hcd]
  have hTW : (c :: (cs ++ rest)).takeWhile isDigitChar = c :: cs := by
    rw [← List.cons_append, ← hser, takeWhile_all_append _ _ (serNat_digit n),
      takeWhile_noDigitHead rest hrest, List.append_nil, hser]
  have hDW : (c :: (cs ++ rest)).dropWhile isDigitChar = rest := by
    rw [← List.cons_append, ← hser, dropWhile_all_append _ _ (serNat_digit n),
      dropWhile_noDigitHead rest hrest]
  rw [hTW, hDW, ← hser, parseNatChars_serNat]

theorem jsonStrChar_ne_quote (s : String) (hwf : s.toList.all jsonStrChar = true) :
    ∀ c ∈ s.toList, c ≠ '"' := by
  intro c hc
  have := List.all_eq_true.mp hwf c hc
  unfold jsonStrChar at this
  simp only [Bool.and_eq_true, decide_eq_true_eq] at this
  exact this.1.1.1

theorem ser_str_toList (s : String) :
    (Json.ser (Json.str s)).toList = '"' :: s.toList ++ ['"'] := by
  show (("\"" : String) ++ s ++ "\"").toList = _
  rw [toList_append, toList_append]
  rfl

theorem parseVal_str (fuel : Nat) (s : String) (rest : List Char)
    (hwf : s.toList.all jsonStrChar = true) :
    parseVal (fuel + 1) ((Json.ser (Json.str s)).toList ++ rest) = some (Json.str s, rest) := by
  rw [ser_str_toList]
  have h2 : ('"' :: s.toList ++ ['"']) ++ rest = '"' :: (s.toList ++ '"' :: rest) := by simp
  rw [h2]
  unfold parseVal
  rw [skipWs_cons_not _ _ (by decide)]
  dsimp only
  rw [if_pos rfl]
  rw [parseStrAux_rt s.toList rest (jsonStrChar_ne_quote s hwf)]
  simp [string_mk_toList]

theorem ser_obj_toList (fs : JsonFields) :
    (Json.ser (Json.obj fs)).toList = lbChar :: ((JsonFields.serFields fs).toList ++ [rbChar]) := by
  show (("\x7b" ++ JsonFields.serFields fs) ++ "\x7d").toList = _
  rw [toList_append, toList_append]
  rw [show ("\x7b" : String).toList = [lbChar] from by decide,
    show ("\x7d" : String).toList = [rbChar] from by decide]
  simp

theorem ser_arr_toList (xs : JsonList) :
    (Json.ser (Json.arr xs)).toList = '[' :: ((JsonList.serItems xs).toList ++ [']']) := by
  show (("[" ++ JsonList.serItems xs) ++ "]").toList = _
  rw [toList_append, toList_append]
  simp

theorem serFields_cons_nil_toList (k : String) (v : Json) :
    (JsonFields.serFields (JsonFields.cons k v JsonFields.nil)).toList
      = '"' :: (k.toList ++ '"' :: ':' :: ' ' :: (Json.ser v).toList) := by
  show ((("\"" ++ k) ++ "\": ") ++ Json.ser v).toList = _
  rw [toList_append, toList_append, toList_append]
  rw [show ("\"" : String).toList = ['"'] from by decide,
    show ("\": " : String).toList = ['"', ':', ' '] from by decide]
  simp

theorem serFields_cons_cons_toList (k : String) (v : Json) (k' : String) (v' : Json)
    (u : JsonFields) :
    (JsonFields.serFields (JsonFields.cons k v (JsonFields.cons k' v' u))).toList
      = '"' :: (k.toList ++ '"' :: ':' :: ' ' ::
          ((Json.ser v).toList ++ ',' :: ' ' ::
            (JsonFields.serFields (JsonFields.cons k' v' u)).toList)) := by
  show (((("\"" ++ k) ++ "\": ") ++ Json.ser v) ++ ", " ++ _).toList = _
  rw [toList_append, toList_append, toList_append, toList_append, toList_append]
  rw [show ("\"" : String).toList = ['"'] from by decide,
    show ("\": " : String).toList = ['"', ':', ' '] from by decide,
    show (", " : String).toList = [',', ' '] from by decide]
  simp

theorem serItems_cons_nil (v : Json) :
    JsonList.serItems (JsonList.cons v JsonList.nil) = Json.ser v := by
  rfl

theorem serItems_cons_cons_toList (v w : Json) (u : JsonList) :
    (JsonList.serItems (JsonList.cons v (JsonList.cons w u))).toList
      = (Json.ser v).toList ++ ',' :: ' ' ::
          (JsonList.serItems (JsonList.cons w u)).toList := by
  show ((Json.ser v ++ ", ") ++ _).toList = _
  rw [toList_append, toList_append]
  rw [show (", " : String).toList = [',', ' '] from by decide]
  simp

theorem ser_head (v : Json) :
    ∃ c cs, (Json.ser v).toList = c :: cs ∧ jsonWs c = false ∧ c ≠ ']' := by
  cases v with
  | null => exact ⟨'n', ['u', 'l', 'l'], by decide, by decide, by decide⟩
  | bool b =>
    cases b with
    | true => exact ⟨'t', ['r', 'u', 'e'], by decide, by decide, by decide⟩
    | false => exact ⟨'f', ['a', 'l', 's', 'e'], by decide, by decide, by decide⟩
  | num n =>
    obtain ⟨c, cs, hser⟩ : ∃ c cs, (serNat n).toList = c :: cs := by
      rcases hl : (serNat n).toList with _ | ⟨c, cs⟩
      · exact absurd hl (serNat_toList_ne_nil n)
      · exact ⟨c, cs, rfl⟩
    have hcd : isDigitChar c = true := serNat_digit n c (by rw [hser]; simp)
    obtain ⟨hws, _, _, _, hbr, _, _⟩ := digit_facts c hcd
    exact ⟨c, cs, hser, hws, hbr⟩
  | str s => exact ⟨'"', s.toList ++ ['"'], ser_str_toList s, by decide, by decide⟩
  | arr xs => exact ⟨'[', _, ser_arr_toList xs, by decide, by decide⟩
  | obj fs => exact ⟨lbChar, _, ser_obj_toList fs, by decide, by decide⟩

theorem serItems_head (v : Json) (t : JsonList) :
    ∃ c cs, (JsonList.serItems (JsonList.cons v t)).toList = c :: cs ∧
      jsonWs c = false ∧ c ≠ ']' := by
  obtain ⟨c, cs0, hser, hws, hne⟩ := ser_head v
  cases t with
  | nil => exact ⟨c, cs0, by rw [serItems_cons_nil, hser], hws, hne⟩
  | cons w u =>
    refine ⟨c, cs0 ++ ',' :: ' ' :: (JsonList.serItems (JsonList.cons w u)).toList, ?_, hws, hne⟩
    rw [serItems_cons_cons_toList, hser]
    rfl

theorem serFields_head (k : String) (v : Json) (t : JsonFields) :
    ∃ cs, (JsonFields.serFields (JsonFields.cons k v t)).toList = '"' :: cs := by
  cases t with
  | nil => exact ⟨_, serFields_cons_nil_toList k v⟩
  | cons k' v' u => exact ⟨_, serFields_cons_cons_toList k v k' v' u⟩

mutual
theorem rtV (v : Json) : ∀ (fuel : Nat) (rest : List Char), jsizeV v < fuel →
    wfV v = true → (∀ n, v = Json.num n → noDigitHead rest) →
    parseVal fuel ((Json.ser v).toList ++ rest) = some (v, rest) := by
  cases v with
  | null =>
    intro fuel rest hfu _ _
    obtain ⟨m, rfl⟩ : ∃ m, fuel = m + 1 :=
      ⟨fuel - 1, by have := Nat.lt_of_le_of_lt (Nat.zero_le _) hfu; omega⟩
    rw [show (Json.ser Json.null).toList = ['n', 'u', 'l', 'l'] from by decide]
    exact parseVal_null m rest
  | bool b =>
    intro fuel rest hfu _ _
    obtain ⟨m, rfl⟩ : ∃ m, fuel = m + 1 :=
      ⟨fuel - 1, by have := Nat.lt_of_le_of_lt (Nat.zero_le _) hfu; omega⟩
    cases b with
    | true =>
      rw [show (Json.ser (Json.bool true)).toList = ['t', 'r', 'u', 'e'] from by decide]
      exact parseVal_true m rest
    | false =>
      rw [show (Json.ser (Json.bool false)).toList = ['f', 'a', 'l', 's', 'e'] from by decide]
      exact parseVal_false m rest
  | num n =>
    intro fuel rest hfu _ hrest
    obtain ⟨m, rfl⟩ : ∃ m, fuel = m + 1 :=
      ⟨fuel - 1, by have := Nat.lt_of_le_of_lt (Nat.zero_le _) hfu; omega⟩
    exact parseVal_num m n rest (hrest n rfl)
  | str s =>
    intro fuel rest hfu hwf _
    obtain ⟨m, rfl⟩ : ∃ m, fuel = m + 1 :=
      ⟨fuel - 1, by have := Nat.lt_of_le_of_lt (Nat.zero_le _) hfu; omega⟩
    exact parseVal_str m s rest (by simpa [wfV] using hwf)
  | arr xs =>
    cases xs with
    | nil =>
      intro fuel rest hfu _ _
      obtain ⟨m, rfl⟩ : ∃ m, fuel = m + 1 :=
        ⟨fuel - 1, by have := Nat.lt_of_le_of_lt (Nat.zero_le _) hfu; omega⟩
      rw [show (Json.ser (Json.arr JsonList.nil)).toList = ['[', ']'] from by decide]
      show parseVal (m + 1) ('[' :: ']' :: rest) = _
      unfold parseVal
      rw [skipWs_cons_not _ _ (by decide)]
      dsimp only
      rw [if_neg (by decide), if_neg (by decide), if_pos rfl]
      rw [skipWs_cons_not _ _ (by decide)]
      dsimp only
      rw [if_pos rfl]
    | cons w u =>
      intro fuel rest hfu hwf _
      obtain ⟨m, rfl⟩ : ∃ m, fuel = m + 1 :=
        ⟨fuel - 1, by have := Nat.lt_of_le_of_lt (Nat.zero_le _) hfu; omega⟩
      rw [ser_arr_toList]
      have hx : ('[' :: ((JsonList.serItems (JsonList.cons w u)).toList ++ [']'])) ++ rest
          = '[' :: ((JsonList.serItems (JsonList.cons w u)).toList ++ ']' :: rest) := by simp
      rw [hx]
      unfold parseVal
      rw [skipWs_cons_not _ _ (by decide)]
      dsimp only
      rw [if_neg (by decide), if_neg (by decide), if_pos rfl]
      obtain ⟨c0, cs0, hI, hws0, hne0⟩ := serItems_head w u
      have hx2 : (JsonList.serItems (JsonList.cons w u)).toList ++ ']' :: rest
          = c0 :: (cs0 ++ ']' :: rest) := by rw [hI]; rfl
      rw [hx2, skipWs_cons_not _ _ hws0]
      dsimp only
      rw [if_neg hne0, ← hx2]
      rw [rtL (JsonList.cons w u) m rest
        (by have h1 : jsizeV (Json.arr (JsonList.cons w u)) = 1 + jsizeL (JsonList.cons w u) :=
              rfl
            omega)
        (by simpa [wfV] using hwf) (by simp)]
      rfl
  | obj fs =>
    cases fs with
    | nil =>
      intro fuel rest hfu _ _
      obtain ⟨m, rfl⟩ : ∃ m, fuel = m + 1 :=
        ⟨fuel - 1, by have := Nat.lt_of_le_of_lt (Nat.zero_le _) hfu; omega⟩
      rw [ser_obj_toList]
      have hx : (lbChar :: ((JsonFields.serFields JsonFields.nil).toList ++ [rbChar])) ++ rest
          = lbChar :: rbChar :: rest := by
        rw [show (JsonFields.serFields JsonFields.nil).toList = [] from rfl]
        rfl
      rw [hx]
      unfold parseVal
      rw [skipWs_cons_not _ _ (by decide)]
      dsimp only
      rw [if_neg (by decide), if_pos rfl]
      rw [skipWs_cons_not _ _ (by decide)]
      dsimp only
      rw [if_pos rfl]
    | cons k w t =>
      intro fuel rest hfu hwf _
      obtain ⟨m, rfl⟩ : ∃ m, fuel = m + 1 :=
        ⟨fuel - 1, by have := Nat.lt_of_le_of_lt (Nat.zero_le _) hfu; omega⟩
      rw [ser_obj_toList]
      have hx : (lbChar :: ((JsonFields.serFields (JsonFields.cons k w t)).toList ++ [rbChar]))
            ++ rest
          = lbChar :: ((JsonFields.serFields (JsonFields.cons k w t)).toList ++ rbChar :: rest) :=
        by simp
      rw [hx]
      unfold parseVal
      rw [skipWs_cons_not _ _ (by decide)]
      dsimp only
      rw [if_neg (by decide), if_pos rfl]
      obtain ⟨cs1, hF⟩ := serFields_head k w t
      have hx2 : (JsonFields.serFields (JsonFields.cons k w t)).toList ++ rbChar :: rest
          = '"' :: (cs1 ++ rbChar :: rest) := by rw [hF]; rfl
      rw [hx2, skipWs_cons_not _ _ (by decide)]
      dsimp only
      rw [if_neg (by decide), ← hx2]
      rw [rtF (JsonFields.cons k w t) m rest
        (by have h1 : jsizeV (Json.obj (JsonFields.cons k w t))
                = 1 + jsizeF (JsonFields.cons k w t) := rfl
            omega)
        (by simp only [wfV, Bool.and_eq_true] at hwf; exact hwf.1) (by simp)]
      rfl

theorem rtF (fs : JsonFields) : ∀ (fuel : Nat) (rest : List Char), jsizeF fs < fuel →
    wfF fs = true → fs ≠ JsonFields.nil →
    parseFields fuel ((JsonFields.serFields fs).toList ++ rbChar :: rest) = some (fs, rest) := by
  cases fs with
  | nil => exact fun _ _ _ _ hne => absurd rfl hne
  | cons k v t =>
    intro fuel rest hfu hwf _
    obtain ⟨m, rfl⟩ : ∃ m, fuel = m + 1 :=
      ⟨fuel - 1, by have := Nat.lt_of_le_of_lt (Nat.zero_le _) hfu; omega⟩
    have hwf3 : (k.toList.all jsonStrChar = true ∧ wfV v = true) ∧ wfF t = true := by
      simpa [wfF, Bool.and_eq_true] using hwf
    cases t with
    | nil =>
      rw [serFields_cons_nil_toList]
      have hx : ('"' :: (k.toList ++ '"' :: ':' :: ' ' :: (Json.ser v).toList)) ++ rbChar :: rest
          = '"' :: (k.toList ++ '"' ::
              (':' :: ' ' :: ((Json.ser v).toList ++ rbChar :: rest))) := by simp
      rw [hx]
      unfold parseFields
      dsimp only
      rw [if_pos rfl]
      rw [parseStrAux_rt k.toList _ (jsonStrChar_ne_quote k hwf3.1.1)]
      dsimp only
      rw [skipWs_cons_not _ _ (by decide)]
      dsimp only
      rw [if_pos rfl, parseVal_ws_cons]
      rw [rtV v m (rbChar :: rest)
        (by have h1 : jsizeF (JsonFields.cons k v JsonFields.nil) = 1 + jsizeV v + 1 := rfl
            omega)
        hwf3.1.2 (fun _ _ => by show isDigitChar rbChar = false; decide)]
      dsimp only
      rw [skipWs_cons_not _ _ (by decide)]
      dsimp only
      rw [if_neg (by decide), if_pos rfl, string_mk_toList]
    | cons k' v' u =>
      rw [serFields_cons_cons_toList]
      have hx : ('"' :: (k.toList ++ '"' :: ':' :: ' ' ::
            ((Json.ser v).toList ++ ',' :: ' ' ::
              (JsonFields.serFields (JsonFields.cons k' v' u)).toList))) ++ rbChar :: rest
          = '"' :: (k.toList ++ '"' :: (':' :: ' ' :: ((Json.ser v).toList ++
              ',' :: ' ' ::
                ((JsonFields.serFields (JsonFields.cons k' v' u)).toList ++ rbChar :: rest)))) :=
        by simp
      rw [hx]
      unfold parseFields
      dsimp only
      rw [if_pos rfl]
      rw [parseStrAux_rt k.toList _ (jsonStrChar_ne_quote k hwf3.1.1)]
      dsimp only
      rw [skipWs_cons_not _ _ (by decide)]
      dsimp only
      rw [if_pos rfl, parseVal_ws_cons]
      rw [rtV v m (',' :: ' ' ::
          ((JsonFields.serFields (JsonFields.cons k' v' u)).toList ++ rbChar :: rest))
        (by have h1 : jsizeF (JsonFields.cons k v (JsonFields.cons k' v' u))
              = 1 + jsizeV v + jsizeF (JsonFields.cons k' v' u) := rfl
            omega)
        hwf3.1.2 (fun _ _ => by show isDigitChar ',' = false; decide)]
      dsimp only
      rw [skipWs_cons_not _ _ (by decide)]
      dsimp only
      rw [if_pos rfl, skipWs_space]
      obtain ⟨cs1, hF⟩ := serFields_head k' v' u
      have hx2 : (JsonFields.serFields (JsonFields.cons k' v' u)).toList ++ rbChar :: rest
          = '"' :: (cs1 ++ rbChar :: rest) := by rw [hF]; rfl
      rw [hx2, skipWs_cons_not _ _ (by decide), ← hx2]
      rw [rtF (JsonFields.cons k' v' u) m rest
        (by have h1 : jsizeF (JsonFields.cons k v (JsonFields.cons k' v' u))
              = 1 + jsizeV v + jsizeF (JsonFields.cons k' v' u) := rfl
            omega)
        hwf3.2 (by simp)]
      rw [string_mk_toList]
      rfl

theorem rtL (xs : JsonList) : ∀ (fuel : Nat) (rest : List Char), jsizeL xs < fuel →
    wfL xs = true → xs ≠ JsonList.nil →
    parseItems fuel ((JsonList.serItems xs).toList ++ ']' :: rest) = some (xs, rest) := by
  cases xs with
  | nil => exact fun _ _ _ _ hne => absurd rfl hne
  | cons v t =>
    intro fuel rest hfu hwf _
    obtain ⟨m, rfl⟩ : ∃ m, fuel = m + 1 :=
      ⟨fuel - 1, by have := Nat.lt_of_le_of_lt (Nat.zero_le _) hfu; omega⟩
    have hwf2 : wfV v = true ∧ wfL t = true := by
      simpa [wfL, Bool.and_eq_true] using hwf
    cases t with
    | nil =>
      rw [serItems_cons_nil]
      unfold parseItems
      rw [rtV v m (']' :: rest)
        (by have h1 : jsizeL (JsonList.cons v JsonList.nil) = 1 + jsizeV v + 1 := rfl
            omega)
        hwf2.1 (fun _ _ => by show isDigitChar ']' = false; decide)]
      dsimp only
      rw [skipWs_cons_not _ _ (by decide)]
      dsimp only
      rw [if_neg (by decide), if_pos rfl]
    | cons w u =>
      rw [serItems_cons_cons_toList]
      have hx : ((Json.ser v).toList ++ ',' :: ' ' ::
            (JsonList.serItems (JsonList.cons w u)).toList) ++ ']' :: rest
          = (Json.ser v).toList ++ ',' :: ' ' ::
              ((JsonList.serItems (JsonList.cons w u)).toList ++ ']' :: rest) := by simp
      rw [hx]
      unfold parseItems
      rw [rtV v m (',' :: ' ' ::
          ((JsonList.serItems (JsonList.cons w u)).toList ++ ']' :: rest))
        (by have h1 : jsizeL (JsonList.cons v (JsonList.cons w u))
              = 1 + jsizeV v + jsizeL (JsonList.cons w u) := rfl
            omega)
        hwf2.1 (fun _ _ => by show isDigitChar ',' = false; decide)]
      dsimp only
      rw [skipWs_cons_not _ _ (by decide)]
      dsimp only
      rw [if_pos rfl, parseItems_ws_cons]
      rw [rtL (JsonList.cons w u) m rest
        (by have h1 : jsizeL (JsonList.cons v (JsonList.cons w u))
              = 1 + jsizeV v + jsizeL (JsonList.cons w u) := rfl
            omega)
        hwf2.2 (by simp)]
      rfl
end

theorem serNat_length_pos (n : Nat) : 0 < (serNat n).length := by
  have h : (serNat n).length = (serNat n).toList.length := rfl
  rw [h]
  exact List.length_pos.mpr (serNat_toList_ne_nil n)

mutual
theorem jsizeV_le (v : Json) : jsizeV v ≤ 2 * (Json.ser v).length := by
  cases v with
  | null => decide
  | bool b => cases b <;> decide
  | num n =>
    have h := serNat_length_pos n
    have h2 : jsizeV (Json.num n) = 1 := rfl
    have h3 : Json.ser (Json.num n) = serNat n := rfl
    rw [h2, h3]
    omega
  | str s =>
    have h2 : jsizeV (Json.str s) = 1 := rfl
    have h3 : (Json.ser (Json.str s)).length = 1 + s.length + 1 := by
      show (("\"" ++ s) ++ "\"").length = _
      rw [String.length_append, String.length_append]
      rfl
    omega
  | arr xs =>
    have h1 := jsizeL_le xs
    have h2 : jsizeV (Json.arr xs) = 1 + jsizeL xs := rfl
    have h3 : (Json.ser (Json.arr xs)).length = 1 + (JsonList.serItems xs).length + 1 := by
      show (("[" ++ JsonList.serItems xs) ++ "]").length = _
      rw [String.length_append, String.length_append]
      rfl
    omega
  | obj fs =>
    have h1 := jsizeF_le fs
    have h2 : jsizeV (Json.obj fs) = 1 + jsizeF fs := rfl
    have h3 : (Json.ser (Json.obj fs)).length = 1 + (JsonFields.serFields fs).length + 1 := by
      show (("\x7b" ++ JsonFields.serFields fs) ++ "\x7d").length = _
      rw [String.length_append, String.length_append]
      rfl
    omega

theorem jsizeL_le (xs : JsonList) : jsizeL xs ≤ 2 * (JsonList.serItems xs).length + 2 := by
  cases xs with
  | nil => decide
  | cons v t =>
    have hv := jsizeV_le v
    cases t with
    | nil =>
      have h2 : jsizeL (JsonList.cons v JsonList.nil) = 1 + jsizeV v + 1 := rfl
      rw [h2, serItems_cons_nil]
      omega
    | cons w u =>
      have ht := jsizeL_le (JsonList.cons w u)
      have h2 : jsizeL (JsonList.cons v (JsonList.cons w u))
          = 1 + jsizeV v + jsizeL (JsonList.cons w u) := rfl
      have h3 : (JsonList.serItems (JsonList.cons v (JsonList.cons w u))).length
          = (Json.ser v).length + 2 + (JsonList.serItems (JsonList.cons w u)).length := by
        show ((Json.ser v ++ ", ") ++ JsonList.serItems (JsonList.cons w u)).length = _
        rw [String.length_append, String.length_append]
        rfl
      omega

theorem jsizeF_le (fs : JsonFields) : jsizeF fs ≤ 2 * (JsonFields.serFields fs).length + 2 := by
  cases fs with
  | nil => decide
  | cons k v t =>
    have hv := jsizeV_le v
    cases t with
    | nil =>
      have h2 : jsizeF (JsonFields.cons k v JsonFields.nil) = 1 + jsizeV v + 1 := rfl
      have h3 : (JsonFields.serFields (JsonFields.cons k v JsonFields.nil)).length
          = 1 + k.length + 3 + (Json.ser v).length := by
        show ((("\"" ++ k) ++ "\": ") ++ Json.ser v).length = _
        rw [String.length_append, String.length_append, String.length_append]
        rfl
      omega
    | cons k' v' u =>
      have ht := jsizeF_le (JsonFields.cons k' v' u)
      have h2 : jsizeF (JsonFields.cons k v (JsonFields.cons k' v' u))
          = 1 + jsizeV v + jsizeF (JsonFields.cons k' v' u) := rfl
      have h3 : (JsonFields.serFields (JsonFields.cons k v (JsonFields.cons k' v' u))).length
          = 1 + k.length + 3 + (Json.ser v).length + 2
            + (JsonFields.serFields (JsonFields.cons k' v' u)).length := by
        show (((("\"" ++ k) ++ "\": ") ++ Json.ser v) ++ ", "
            ++ JsonFields.serFields (JsonFields.cons k' v' u)).length = _
        rw [String.length_append, String.length_append, String.length_append,
          String.length_append, String.length_append]
        rfl
      omega
end

theorem json_loads_ser (v : Json) (hwf : wfV v = true) :
    json_loads (Json.ser v) = some v := by
  unfold json_loads
  have hfu : jsizeV v < 2 * (Json.ser v).length + 2 :=
    Nat.lt_of_le_of_lt (jsizeV_le v) (by omega)
  rw [show (Json.ser v).toList = (Json.ser v).toList ++ [] from (List.append_nil _).symm]
  rw [rtV v (2 * (Json.ser v).length + 2) [] hfu hwf (fun _ _ => trivial)]
  dsimp only
  rw [if_pos (show skipWs ([] : List Char) = [] from rfl)]

theorem mem_dropWhile_of_not (p : Char → Bool) (l : List Char) (c : Char)
    (hc : c ∈ l) (hp : p c = false) : c ∈ l.dropWhile p := by
  induction l with
  | nil => cases hc
  | cons a t ih =>
    rw [List.dropWhile_cons]
    by_cases hpa : p a = true
    · rw [if_pos hpa]
      rcases List.mem_cons.mp hc with rfl | hct
      · exact absurd hpa (by simp [hp])
      · exact ih hct
    · rw [if_neg hpa]
      exact hc

theorem dropWhile_head_false (p : Char → Bool) (l : List Char) (c : Char) (t : List Char)
    (h : l.dropWhile p = c :: t) : p c = false := by
  induction l with
  | nil => cases h
  | cons a l' ih =>
    rw [List.dropWhile_cons] at h
    by_cases hpa : p a = true
    · rw [if_pos hpa] at h
      exact ih h
    · rw [if_neg hpa] at h
      cases h
      simpa using hpa

theorem skipWs_skipWs (l : List Char) : skipWs (skipWs l) = skipWs l := by
  rcases h : skipWs l with _ | ⟨c, t⟩
  · rfl
  · exact skipWs_cons_not c t (dropWhile_head_false jsonWs l c t h)

theorem parseVal_skipWs (fuel : Nat) (l : List Char) :
    parseVal fuel (skipWs l) = parseVal fuel l := by
  cases fuel with
  | zero => rfl
  | succ m =>
    unfold parseVal
    rw [skipWs_skipWs]

theorem lit_prefix_le (lit : List Char) : ∀ (l₁ : List Char) (r : List Char),
    lbChar ∉ lit → lit.isPrefixOf (l₁ ++ lbChar :: r) = true → lit.length ≤ l₁.length := by
  induction lit with
  | nil => intro l₁ r _ _; simp
  | cons c ct ih =>
    intro l₁ r hlb h
    cases l₁ with
    | nil =>
      simp only [List.nil_append, List.isPrefixOf, Bool.and_eq_true, beq_iff_eq] at h
      exact absurd (by rw [h.1]; exact List.mem_cons_self lbChar ct) hlb
    | cons d dt =>
      simp only [List.cons_append, List.isPrefixOf, Bool.and_eq_true, beq_iff_eq] at h
      have := ih dt r (fun hm => hlb (List.mem_cons_of_mem c hm)) h.2
      simpa using Nat.succ_le_succ this

theorem parseVal_prose (F : Nat) (c : Char) (t r : List Char)
    (hcws : jsonWs c = false)
    (hcp : proseChar c = true) :
    parseVal F ((c :: t) ++ lbChar :: r) = Option.none ∨
      ∃ v rem, parseVal F ((c :: t) ++ lbChar :: r) = some (v, rem) ∧ lbChar ∈ rem := by
  cases F with
  | zero => left; rfl
  | succ m =>
    have hin : (c :: t) ++ lbChar :: r = c :: (t ++ lbChar :: r) := rfl
    rw [hin]
    unfold parseVal
    rw [skipWs_cons_not _ _ hcws]
    dsimp only
    have hfacts : c ≠ lbChar ∧ c ≠ rbChar ∧ c ≠ '[' ∧ c ≠ ']' ∧ c ≠ '"' := by
      unfold proseChar at hcp
      simp only [Bool.and_eq_true, decide_eq_true_eq] at hcp
      exact ⟨hcp.1.1.1.1, hcp.1.1.1.2, hcp.1.1.2, hcp.1.2, hcp.2⟩
    rw [if_neg hfacts.2.2.2.2, if_neg hfacts.1, if_neg hfacts.2.2.1]
    by_cases hd : isDigitChar c = true
    · rw [if_pos hd]
      right
      refine ⟨_, _, rfl, ?_⟩
      exact mem_dropWhile_of_not isDigitChar _ lbChar (by simp) (by decide)
    · rw [if_neg hd]
      by_cases ht : (['t', 'r', 'u', 'e'] : List Char).isPrefixOf (c :: (t ++ lbChar :: r)) = true
      · rw [if_pos ht]
        right
        refine ⟨_, _, rfl, ?_⟩
        have hle : (['t', 'r', 'u', 'e'] : List Char).length ≤ (c :: t).length :=
          lit_prefix_le _ (c :: t) r (by decide) ht
        have hdrop : (c :: (t ++ lbChar :: r)).drop 4 = (c :: t).drop 4 ++ lbChar :: r := by
          show ((c :: t) ++ lbChar :: r).drop 4 = _
          exact List.drop_append_of_le_length hle
        rw [hdrop]
        simp
      · rw [if_neg ht]
        by_cases hf :
            (['f', 'a', 'l', 's', 'e'] : List Char).isPrefixOf (c :: (t ++ lbChar :: r)) = true
        · rw [if_pos hf]
          right
          refine ⟨_, _, rfl, ?_⟩
          have hle : (['f', 'a', 'l', 's', 'e'] : List Char).length ≤ (c :: t).length :=
            lit_prefix_le _ (c :: t) r (by decide) hf
          have hdrop : (c :: (t ++ lbChar :: r)).drop 5 = (c :: t).drop 5 ++ lbChar :: r := by
            show ((c :: t) ++ lbChar :: r).drop 5 = _
            exact List.drop_append_of_le_length hle
          rw [hdrop]
          simp
        · rw [if_neg hf]
          by_cases hn :
              (['n', 'u', 'l', 'l'] : List Char).isPrefixOf (c :: (t ++ lbChar :: r)) = true
          · rw [if_pos hn]
            right
            refine ⟨_, _, rfl, ?_⟩
            have hle : (['n', 'u', 'l', 'l'] : List Char).length ≤ (c :: t).length :=
              lit_prefix_le _ (c :: t) r (by decide) hn
            have hdrop : (c :: (t ++ lbChar :: r)).drop 4 = (c :: t).drop 4 ++ lbChar :: r := by
              show ((c :: t) ++ lbChar :: r).drop 4 = _
              exact List.drop_append_of_le_length hle
            rw [hdrop]
            simp
          · rw [if_neg hn]
            left
            rfl

theorem json_loads_affixed (pre suf : String) (fs : JsonFields)
    (hwf : wfV (Json.obj fs) = true)
    (hpre : ∀ c ∈ pre.toList, proseChar c = true) :
    json_loads (pre ++ Json.ser (Json.obj fs) ++ suf) = some (Json.obj fs) ∨
    json_loads (pre ++ Json.ser (Json.obj fs) ++ suf) = Option.none := by
  have hL : (pre ++ Json.ser (Json.obj fs) ++ suf).toList
      = pre.toList ++ ((Json.ser (Json.obj fs)).toList ++ suf.toList) := by
    rw [toList_append, toList_append, List.append_assoc]
  have hlen : (Json.ser (Json.obj fs)).length ≤ (pre ++ Json.ser (Json.obj fs) ++ suf).length := by
    rw [String.length_append, String.length_append]
    omega
  have hfu : jsizeV (Json.obj fs) < 2 * (pre ++ Json.ser (Json.obj fs) ++ suf).length + 2 := by
    have := jsizeV_le (Json.obj fs)
    omega
  unfold json_loads
  rw [hL, ← parseVal_skipWs]
  rcases hdp : pre.toList.dropWhile jsonWs with _ | ⟨c, t1⟩
  · have hskip : skipWs (pre.toList ++ ((Json.ser (Json.obj fs)).toList ++ suf.toList))
        = skipWs ((Json.ser (Json.obj fs)).toList ++ suf.toList) := by
      unfold skipWs
      rw [List.dropWhile_append, if_pos (by rw [hdp]; rfl)]
    rw [hskip, parseVal_skipWs]
    rw [rtV (Json.obj fs) _ suf.toList hfu hwf (fun _ h => nomatch h)]
    dsimp only
    by_cases hs : skipWs suf.toList = []
    · left
      rw [if_pos hs]
    · right
      rw [if_neg hs]
  · right
    have hcws : jsonWs c = false := dropWhile_head_false jsonWs pre.toList c t1 hdp
    have hcp : proseChar c = true := by
      refine hpre c ?_
      have hsub := (List.dropWhile_sublist (l := pre.toList) (p := jsonWs)).subset
      exact hsub (by rw [hdp]; exact List.mem_cons_self c t1)
    have hskip : skipWs (pre.toList ++ ((Json.ser (Json.obj fs)).toList ++ suf.toList))
        = (c :: t1) ++ ((Json.ser (Json.obj fs)).toList ++ suf.toList) := by
      unfold skipWs
      rw [List.dropWhile_append, if_neg (by rw [hdp]; simp)]
      rw [hdp]
    have hser : (Json.ser (Json.obj fs)).toList ++ suf.toList
        = lbChar :: ((JsonFields.serFields fs).toList ++ rbChar :: suf.toList) := by
      rw [ser_obj_toList]
      simp
    rw [hskip, hser]
    rcases parseVal_prose _ c t1 _ hcws hcp with h | ⟨v, rem, h, hmem⟩
    · rw [h]
    · rw [h]
      dsimp only
      rw [if_neg ?hne]
      case hne =>
        intro hnil
        have := mem_dropWhile_of_not jsonWs rem lbChar hmem (by decide)
        rw [show skipWs rem = rem.dropWhile jsonWs from rfl] at hnil
        rw [hnil] at this
        cases this

theorem nonBrace_of_jsonStrChar (c : Char) (h : jsonStrChar c = true) : nonBrace c = true := by
  unfold jsonStrChar at h
  unfold nonBrace
  simp only [Bool.and_eq_true, decide_eq_true_eq] at h ⊢
  exact ⟨h.1.2, h.2⟩

theorem nonBrace_of_digit (c : Char) (h : isDigitChar c = true) : nonBrace c = true := by
  obtain ⟨_, _, hlb, _, _, hrb, _⟩ := digit_facts c h
  unfold nonBrace
  simp only [Bool.and_eq_true, decide_eq_true_eq]
  exact ⟨hlb, hrb⟩

theorem bf_lit (l : List Char) (h : l.all nonBrace = true) : braceFree l :=
  fun c hc => List.all_eq_true.mp h c hc

mutual
theorem bf_serV (v : Json) : wfV v = true → bdV v = 0 → braceFree (Json.ser v).toList := by
  cases v with
  | null => intro _ _; exact bf_lit _ (by decide)
  | bool b => intro _ _; cases b <;> exact bf_lit _ (by decide)
  | num n =>
    intro _ _ c hc
    exact nonBrace_of_digit c (serNat_digit n c hc)
  | str s =>
    intro hwf _ c hc
    rw [ser_str_toList] at hc
    rcases List.mem_cons.mp hc with rfl | hc2
    · decide
    · rcases List.mem_append.mp hc2 with hc3 | hc4
      · exact nonBrace_of_jsonStrChar c (List.all_eq_true.mp (by simpa [wfV] using hwf) c hc3)
      · rcases List.mem_singleton.mp hc4 with rfl
        decide
  | arr xs =>
    intro hwf hbd c hc
    rw [ser_arr_toList] at hc
    rcases List.mem_cons.mp hc with rfl | hc2
    · decide
    · rcases List.mem_append.mp hc2 with hc3 | hc4
      · exact bf_serI xs (by simpa [wfV] using hwf)
          (by have h1 : bdV (Json.arr xs) = bdL xs := rfl; omega) c hc3
      · rcases List.mem_singleton.mp hc4 with rfl
        decide
  | obj fs =>
    intro _ hbd
    exact absurd hbd (by have h1 : bdV (Json.obj fs) = 1 + bdF fs := rfl; omega)

theorem bf_serI (xs : JsonList) : wfL xs = true → bdL xs = 0 →
    braceFree (JsonList.serItems xs).toList := by
  cases xs with
  | nil => intro _ _ c hc; cases hc
  | cons v t =>
    have hbdv : bdL (JsonList.cons v t) = max (bdV v) (bdL t) := rfl
    cases t with
    | nil =>
      intro hwf hbd c hc
      rw [serItems_cons_nil] at hc
      exact bf_serV v (by simp only [wfL, Bool.and_eq_true] at hwf; exact hwf.1)
        (by omega) c hc
    | cons w u =>
      intro hwf hbd c hc
      rw [serItems_cons_cons_toList] at hc
      have hwf2 : wfV v = true ∧ wfL (JsonList.cons w u) = true := by
        simpa [wfL, Bool.and_eq_true] using hwf
      rcases List.mem_append.mp hc with hc1 | hc2
      · exact bf_serV v hwf2.1 (by omega) c hc1
      · rcases List.mem_cons.mp hc2 with rfl | hc3
        · decide
        · rcases List.mem_cons.mp hc3 with rfl | hc4
          · decide
          · exact bf_serI (JsonList.cons w u) hwf2.2 (by omega) c hc4

theorem bf_serF (fs : JsonFields) : wfF fs = true → bdF fs = 0 →
    braceFree (JsonFields.serFields fs).toList := by
  cases fs with
  | nil => intro _ _ c hc; cases hc
  | cons k v t =>
    have hbdv : bdF (JsonFields.cons k v t) = max (bdV v) (bdF t) := rfl
    cases t with
    | nil =>
      intro hwf hbd c hc
      have hwf2 : (k.toList.all jsonStrChar = true ∧ wfV v = true) ∧ True := by
        simpa [wfF, Bool.and_eq_true] using hwf
      rw [serFields_cons_nil_toList] at hc
      rcases List.mem_cons.mp hc with rfl | hc2
      · decide
      · rcases List.mem_append.mp hc2 with hc3 | hc4
        · exact nonBrace_of_jsonStrChar c (List.all_eq_true.mp hwf2.1.1 c hc3)
        · rcases List.mem_cons.mp hc4 with rfl | hc5
          · decide
          · rcases List.mem_cons.mp hc5 with rfl | hc6
            · decide
            · rcases List.mem_cons.mp hc6 with rfl | hc7
              · decide
              · exact bf_serV v hwf2.1.2 (by omega) c hc7
    | cons k' v' u =>
      intro hwf hbd c hc
      have hwf2 : (k.toList.all jsonStrChar = true ∧ wfV v = true)
          ∧ wfF (JsonFields.cons k' v' u) = true := by
        simpa [wfF, Bool.and_eq_true] using hwf
      rw [serFields_cons_cons_toList] at hc
      rcases List.mem_cons.mp hc with rfl | hc2
      · decide
      · rcases List.mem_append.mp hc2 with hc3 | hc4
        · exact nonBrace_of_jsonStrChar c (List.all_eq_true.mp hwf2.1.1 c hc3)
        · rcases List.mem_cons.mp hc4 with rfl | hc5
          · decide
          · rcases List.mem_cons.mp hc5 with rfl | hc6
            · decide
            · rcases List.mem_cons.mp hc6 with rfl | hc7
              · decide
              · rcases List.mem_append.mp hc7 with hc8 | hc9
                · exact bf_serV v hwf2.1.2 (by omega) c hc8
                · rcases List.mem_cons.mp hc9 with rfl | hc10
                  · decide
                  · rcases List.mem_cons.mp hc10 with rfl | hc11
                    · decide
                    · exact bf_serF (JsonFields.cons k' v' u) hwf2.2 (by omega) c hc11
end

theorem D1_of_bf (a : List Char) (h : braceFree a) : D1 a := by
  have := D1.chunk a [] h D1.nil
  simpa using this

theorem D1_append (a b : List Char) (ha : D1 a) (hb : D1 b) : D1 (a ++ b) := by
  induction ha with
  | nil => simpa
  | chunk a' t' hbf _ ih =>
    rw [List.append_assoc]
    exact D1.chunk a' (t' ++ b) hbf ih
  | block b' t' hbf _ ih =>
    have hsh : (lbChar :: b' ++ rbChar :: t') ++ b = lbChar :: b' ++ rbChar :: (t' ++ b) := by
      simp
    rw [hsh]
    exact D1.block b' (t' ++ b) hbf ih

mutual
theorem D1_serV (v : Json) : wfV v = true → bdV v ≤ 1 → D1 (Json.ser v).toList := by
  cases v with
  | null => intro _ _; exact D1_of_bf _ (bf_serV Json.null rfl rfl)
  | bool b => intro _ _; exact D1_of_bf _ (bf_serV (Json.bool b) rfl rfl)
  | num n => intro _ _; exact D1_of_bf _ (bf_serV (Json.num n) rfl rfl)
  | str s => intro hwf _; exact D1_of_bf _ (bf_serV (Json.str s) hwf rfl)
  | arr xs =>
    intro hwf hbd
    rw [ser_arr_toList]
    have h1 : '[' :: ((JsonList.serItems xs).toList ++ [']'])
        = ['['] ++ ((JsonList.serItems xs).toList ++ [']']) := rfl
    rw [h1]
    refine D1_append _ _ (D1_of_bf _ (bf_lit _ (by decide))) (D1_append _ _ ?_ (D1_of_bf _ (bf_lit _ (by decide))))
    exact D1_serI xs (by simpa [wfV] using hwf)
      (by have h2 : bdV (Json.arr xs) = bdL xs := rfl; omega)
  | obj fs =>
    intro hwf hbd
    rw [ser_obj_toList]
    have hbd0 : bdF fs = 0 := by
      have h1 : bdV (Json.obj fs) = 1 + bdF fs := rfl
      omega
    exact D1.block (JsonFields.serFields fs).toList []
      (bf_serF fs (by simp only [wfV, Bool.and_eq_true] at hwf; exact hwf.1) hbd0) D1.nil

theorem D1_serI (xs : JsonList) : wfL xs = true → bdL xs ≤ 1 →
    D1 (JsonList.serItems xs).toList := by
  cases xs with
  | nil => intro _ _; exact D1.nil
  | cons v t =>
    have hbdv : bdL (JsonList.cons v t) = max (bdV v) (bdL t) := rfl
    cases t with
    | nil =>
      intro hwf hbd
      rw [show (JsonList.serItems (JsonList.cons v JsonList.nil)).toList = (Json.ser v).toList
        from by rw [serItems_cons_nil]]
      exact D1_serV v (by simp only [wfL, Bool.and_eq_true] at hwf; exact hwf.1) (by omega)
    | cons w u =>
      intro hwf hbd
      have hwf2 : wfV v = true ∧ wfL (JsonList.cons w u) = true := by
        simpa [wfL, Bool.and_eq_true] using hwf
      rw [serItems_cons_cons_toList]
      refine D1_append _ _ (D1_serV v hwf2.1 (by omega)) ?_
      have h1 : ',' :: ' ' :: (JsonList.serItems (JsonList.cons w u)).toList
          = [',', ' '] ++ (JsonList.serItems (JsonList.cons w u)).toList := rfl
      rw [h1]
      exact D1_append _ _ (D1_of_bf _ (bf_lit _ (by decide)))
        (D1_serI (JsonList.cons w u) hwf2.2 (by omega))

theorem D1_serF (fs : JsonFields) : wfF fs = true → bdF fs ≤ 1 →
    D1 (JsonFields.serFields fs).toList := by
  cases fs with
  | nil => intro _ _; exact D1.nil
  | cons k v t =>
    have hbdv : bdF (JsonFields.cons k v t) = max (bdV v) (bdF t) := rfl
    cases t with
    | nil =>
      intro hwf hbd
      have hwf2 : (k.toList.all jsonStrChar = true ∧ wfV v = true) ∧ True := by
        simpa [wfF, Bool.and_eq_true] using hwf
      rw [serFields_cons_nil_toList]
      have h1 : '"' :: (k.toList ++ '"' :: ':' :: ' ' :: (Json.ser v).toList)
          = ('"' :: k.toList ++ ['"', ':', ' ']) ++ (Json.ser v).toList := by simp
      rw [h1]
      refine D1_append _ _ (D1_of_bf _ ?_) (D1_serV v hwf2.1.2 (by omega))
      intro c hc
      rcases List.mem_cons.mp hc with rfl | hc2
      · decide
      · rcases List.mem_append.mp hc2 with hc3 | hc4
        · exact nonBrace_of_jsonStrChar c (List.all_eq_true.mp hwf2.1.1 c hc3)
        · rcases List.mem_cons.mp hc4 with rfl | hc5
          · decide
          · rcases List.mem_cons.mp hc5 with rfl | hc6
            · decide
            · rcases List.mem_singleton.mp hc6 with rfl
              decide
    | cons k' v' u =>
      intro hwf hbd
      have hwf2 : (k.toList.all jsonStrChar = true ∧ wfV v = true)
          ∧ wfF (JsonFields.cons k' v' u) = true := by
        simpa [wfF, Bool.and_eq_true] using hwf
      rw [serFields_cons_cons_toList]
      have h1 : '"' :: (k.toList ++ '"' :: ':' :: ' ' ::
            ((Json.ser v).toList ++ ',' :: ' ' ::
              (JsonFields.serFields (JsonFields.cons k' v' u)).toList))
          = ('"' :: k.toList ++ ['"', ':', ' ']) ++ ((Json.ser v).toList ++ ([',', ' '] ++
              (JsonFields.serFields (JsonFields.cons k' v' u)).toList)) := by simp
      rw [h1]
      refine D1_append _ _ (D1_of_bf _ ?_)
        (D1_append _ _ (D1_serV v hwf2.1.2 (by omega))
          (D1_append _ _ (D1_of_bf _ (bf_lit _ (by decide)))
            (D1_serF (JsonFields.cons k' v' u) hwf2.2 (by omega))))
      intro c hc
      rcases List.mem_cons.mp hc with rfl | hc2
      · decide
      · rcases List.mem_append.mp hc2 with hc3 | hc4
        · exact nonBrace_of_jsonStrChar c (List.all_eq_true.mp hwf2.1.1 c hc3)
        · rcases List.mem_cons.mp hc4 with rfl | hc5
          · decide
          · rcases List.mem_cons.mp hc5 with rfl | hc6
            · decide
            · rcases List.mem_singleton.mp hc6 with rfl
              decide
end

theorem bf_dropWhile_nonBrace (a X : List Char) (ha : braceFree a) :
    (a ++ X).dropWhile nonBrace = X.dropWhile nonBrace := by
  have h1 : a.dropWhile nonBrace = [] :=
    List.dropWhile_eq_nil_iff.mpr (fun x hx => ha x hx)
  rw [List.dropWhile_append, if_pos (by rw [h1]; rfl)]

theorem mb2Tail_D1 (body : List Char) (hD : D1 body) : ∀ (rest : List Char) (fuel : Nat),
    body.length < fuel → mb2Tail fuel (body ++ rbChar :: rest) = some rest := by
  induction hD with
  | nil =>
    intro rest fuel hfu
    obtain ⟨m, rfl⟩ : ∃ m, fuel = m + 1 := ⟨fuel - 1, by omega⟩
    rw [List.nil_append]
    unfold mb2Tail
    rw [show (rbChar :: rest).dropWhile nonBrace = rbChar :: rest from by
      rw [List.dropWhile_cons, if_neg (by decide)]]
    dsimp only
    rw [if_pos rfl]
  | chunk a t hbf hD2 ih =>
    intro rest fuel hfu
    obtain ⟨m, rfl⟩ : ∃ m, fuel = m + 1 := ⟨fuel - 1, by omega⟩
    rw [List.append_assoc]
    have hstep : mb2Tail (m + 1) (a ++ (t ++ rbChar :: rest))
        = mb2Tail (m + 1) (t ++ rbChar :: rest) := by
      unfold mb2Tail
      rw [bf_dropWhile_nonBrace a _ hbf]
    rw [hstep]
    have hl : (a ++ t).length = a.length + t.length := List.length_append a t
    exact ih rest (m + 1) (by omega)
  | block b t hbf hD2 ih =>
    intro rest fuel hfu
    obtain ⟨m, rfl⟩ : ∃ m, fuel = m + 1 := ⟨fuel - 1, by omega⟩
    have hsh : (lbChar :: b ++ rbChar :: t) ++ rbChar :: rest
        = lbChar :: (b ++ rbChar :: (t ++ rbChar :: rest)) := by simp
    rw [hsh]
    unfold mb2Tail
    rw [show (lbChar :: (b ++ rbChar :: (t ++ rbChar :: rest))).dropWhile nonBrace
        = lbChar :: (b ++ rbChar :: (t ++ rbChar :: rest)) from by
      rw [List.dropWhile_cons, if_neg (by decide)]]
    dsimp only
    rw [if_neg (by decide)]
    rw [bf_dropWhile_nonBrace b _ hbf]
    rw [show (rbChar :: (t ++ rbChar :: rest)).dropWhile nonBrace
        = rbChar :: (t ++ rbChar :: rest) from by
      rw [List.dropWhile_cons, if_neg (by decide)]]
    dsimp only
    rw [if_pos rfl]
    have hl : (lbChar :: b ++ rbChar :: t).length = b.length + t.length + 2 := by
      simp
      omega
    exact ih rest m (by omega)

theorem findAllB2_prose_skip (P : List Char) : ∀ (fuel : Nat) (X : List Char),
    (∀ c ∈ P, proseChar c = true) →
    findAllB2 (P.length + fuel) (P ++ X) = findAllB2 fuel X := by
  induction P with
  | nil =>
    intro fuel X _
    rw [List.nil_append]
    norm_num
  | cons c P2 ih =>
    intro fuel X hp
    have hcp := hp c (List.mem_cons_self c P2)
    have hlb : ¬ c = lbChar := by
      unfold proseChar at hcp
      simp only [Bool.and_eq_true, decide_eq_true_eq] at hcp
      exact hcp.1.1.1.1
    have hlen : (c :: P2).length + fuel = (P2.length + fuel) + 1 := by
      simp only [List.length_cons]
      omega
    rw [hlen, List.cons_append]
    conv_lhs => unfold findAllB2
    rw [if_neg hlb]
    exact ih fuel X (fun x hx => hp x (List.mem_cons_of_mem c hx))

/-- C5 (amended): the extractor round-trip holds up to the block regex's
nesting capacity: for every well-formed object of the modelled fragment whose
serialization has brace depth at most 2, every prefix of prose characters
(no braces, brackets or quotes) and every suffix whatsoever,
`_extract_json_from_text` applied to `prefix-noise + dumps(J) + suffix`
returns an object equal to `J`. -/
theorem json_extractor_roundtrip_depth2 (pre suf : String) (fs : JsonFields)
    (hwf : wfV (Json.obj fs) = true) (hbd : bdV (Json.obj fs) ≤ 2)
    (hpre : ∀ c ∈ pre.toList, proseChar c = true) :
    extract_json_from_text (pre ++ Json.ser (Json.obj fs) ++ suf) = some (Json.obj fs) := by
  have hwfF : wfF fs = true := by
    have h := hwf
    simp only [wfV, Bool.and_eq_true] at h
    exact h.1
  have hbdF : bdF fs ≤ 1 := by
    have h1 : bdV (Json.obj fs) = 1 + bdF fs := rfl
    omega
  unfold extract_json_from_text
  rcases json_loads_affixed pre suf fs hwf hpre with h | h
  · rw [h]
  · rw [h]
    dsimp only
    have hL : (pre ++ Json.ser (Json.obj fs) ++ suf).toList
        = pre.toList ++ ((Json.ser (Json.obj fs)).toList ++ suf.toList) := by
      rw [toList_append, toList_append, List.append_assoc]
    rw [hL]
    have hlen2 : (pre.toList ++ ((Json.ser (Json.obj fs)).toList ++ suf.toList)).length + 1
        = pre.toList.length + (((Json.ser (Json.obj fs)).toList ++ suf.toList).length + 1) := by
      rw [List.length_append]
      omega
    rw [hlen2, findAllB2_prose_skip pre.toList _ _ hpre]
    have hser : (Json.ser (Json.obj fs)).toList ++ suf.toList
        = lbChar :: ((JsonFields.serFields fs).toList ++ rbChar :: suf.toList) := by
      rw [ser_obj_toList]
      simp
    rw [hser]
    have hflen : (lbChar :: ((JsonFields.serFields fs).toList ++ rbChar :: suf.toList)).length + 1
        = (((JsonFields.serFields fs).toList ++ rbChar :: suf.toList).length + 1) + 1 := by
      simp
    rw [hflen]
    conv_lhs => unfold findAllB2
    rw [if_pos rfl]
    have hmb : mb2Tail (((JsonFields.serFields fs).toList ++ rbChar :: suf.toList).length + 1)
        ((JsonFields.serFields fs).toList ++ rbChar :: suf.toList) = some suf.toList := by
      refine mb2Tail_D1 _ (D1_serF fs hwfF hbdF) suf.toList _ ?_
      rw [List.length_append]
      simp only [List.length_cons]
      omega
    rw [hmb]
    dsimp only
    have htake : (lbChar :: ((JsonFields.serFields fs).toList ++ rbChar :: suf.toList)).take
        ((lbChar :: ((JsonFields.serFields fs).toList ++ rbChar :: suf.toList)).length
          - suf.toList.length)
        = (Json.ser (Json.obj fs)).toList := by
      have h1 : lbChar :: ((JsonFields.serFields fs).toList ++ rbChar :: suf.toList)
          = (Json.ser (Json.obj fs)).toList ++ suf.toList := by
        rw [ser_obj_toList]
        simp
      have h2 : (lbChar :: ((JsonFields.serFields fs).toList ++ rbChar :: suf.toList)).length
            - suf.toList.length = (Json.ser (Json.obj fs)).toList.length := by
        rw [h1, List.length_append]
        omega
      rw [h2, h1, List.take_left]
    rw [htake]
    conv_lhs => unfold firstParse
    rw [string_mk_toList, json_loads_ser (Json.obj fs) hwf]

theorem json_extractor_roundtrip_depth2_witness :
    extract_json_from_text ("Result: " ++ Json.ser (Json.obj fsW) ++ " ok 5")
      = some (Json.obj fsW) :=
  json_extractor_roundtrip_depth2 "Result: " " ok 5" fsW (by with_unfolding_all decide)
    (by with_unfolding_all decide) (by with_unfolding_all decide)
